import Mathlib

/-!
Verification of the openqueue durable workflow engine (TypeScript, BullMQ-based).

This file shallowly embeds the core of the repository:
  * `src/execution/job-state.ts`  — `JobStateManager`, `StepStateManager`, the zod
    schemas `JobStateSchema` / `StepStateSchema` and the static `prepareData`;
  * `src/execution/executor.ts`   — `ActiveJobExecutor.execute` (both variants) and
    the `StepExecutor` primitives `executeRun`, `executeSleep`, `executeSleepUntil`,
    `executeRepeat`, `executeInvoke` (second, complete variant);
  * `src/execution/job.ts`        — `ActiveJob.delay`;
  * `src/management/workflow.ts`  — `Workflow.createJob`.

JavaScript dynamic values are modelled by the inductive `JSVal`.  Mutable object
state is modelled by explicit state passing over `ExecState`; object aliasing
between the in-memory `JobState` blob (`this.data`) and the per-step handles
(`this.steps`) is tracked by an explicit `aliased` flag, and the deep copy
performed by `JobStateSchema.parse` inside `updateData` is modelled by clearing
that flag.  `Date.now()` is passed in as an explicit `now` argument.  Log-line
buffering (`ctx.log`) inside the step primitives is not modelled (it only
appends to an in-context buffer drained by the executor's `finally`); the drain
itself (`wrapUp`) is modelled.  Numeric coercion of JavaScript values is
modelled for numbers, booleans, `null`, `undefined` and `NaN`; coercion of
strings and objects (never produced by this code for the coerced fields) is
approximated as `NaN`.
-/

namespace OpenQueue

/-- A JavaScript runtime value, as far as the embedded code observes it.
`fn` stands for a function value (e.g. a method reference such as
`e.toString` accessed without calling it); `nan` is the numeric NaN. -/
inductive JSVal where
  | null
  | undefined
  | nan
  | bool (b : Bool)
  | num (n : Int)
  | str (s : String)
  | arr (elems : List JSVal)
  | obj (fields : List (String × JSVal))
  | fn (tag : String)

/-- JavaScript truthiness: `null`, `undefined`, `NaN`, `false`, `0` and `""`
are falsy, everything else is truthy. -/
def truthy : JSVal → Bool
  | .null => false
  | .undefined => false
  | .nan => false
  | .bool b => b
  | .num n => n != 0
  | .str s => s ≠ ""
  | .arr _ => true
  | .obj _ => true
  | .fn _ => true

/-- Lookup in an association list (first match), used for JS object fields
and for the step records. -/
def alistGet {α : Type} (l : List (String × α)) (k : String) : Option α :=
  match l with
  | [] => none
  | (k', v) :: rest => if k' = k then some v else alistGet rest k

/-- Update the value at a key if present (object field mutation). -/
def alistSet {α : Type} (l : List (String × α)) (k : String) (v : α) :
    List (String × α) :=
  match l with
  | [] => []
  | (k', v') :: rest =>
      if k' = k then (k', v) :: rest else (k', v') :: alistSet rest k v

/-- Property access `o.k` on a JS value: `undefined` for a missing field or a
non-object receiver. -/
def jsGet (v : JSVal) (k : String) : JSVal :=
  match v with
  | .obj fields => (alistGet fields k).getD .undefined
  | _ => .undefined

/-- Set (or add) a property on a JS object value; non-objects are returned
unchanged (the code never writes properties on non-objects). -/
def jsSet (v : JSVal) (k : String) (x : JSVal) : JSVal :=
  match v with
  | .obj fields =>
      match alistGet fields k with
      | some _ => .obj (alistSet fields k x)
      | none => .obj (fields ++ [(k, x)])
  | other => other

/-- JS numeric coercion `ToNumber`, partially: `none` stands for NaN.
Strings and objects are approximated as NaN (the embedded code never stores a
string or object in the coerced fields). -/
def toNum? : JSVal → Option Int
  | .num n => some n
  | .null => some 0
  | .bool b => some (if b then 1 else 0)
  | _ => none

/-- JS `x >= n` for a dynamic `x` and a number `n`: false when `x` coerces
to NaN. -/
def jsGe (v : JSVal) (n : Int) : Bool :=
  match toNum? v with
  | some a => a ≥ n
  | none => false

/-- JS `x < n` for a dynamic `x` and a number `n`: false when `x` coerces
to NaN. -/
def jsLt (v : JSVal) (n : Int) : Bool :=
  match toNum? v with
  | some a => a < n
  | none => false

/-- JS `x++` result value: NaN-producing coercions give `nan`. -/
def jsIncr (v : JSVal) : JSVal :=
  match toNum? v with
  | some a => .num (a + 1)
  | none => .nan

/-- `e?.toString ?? "N/A"` — the expression used by `StepStateManager.error`
in `job-state.ts`.  Note the property is accessed, not called: for any
non-nullish receiver it evaluates to the `toString` method itself (a function
value), and the `?? "N/A"` fallback only fires for `null`/`undefined`. -/
def optionalToStringMethod (e : JSVal) : JSVal :=
  match e with
  | .null => .str "N/A"
  | .undefined => .str "N/A"
  | _ => .fn "toString"

/-! ## The data model (zod schemas in `job-state.ts`) -/

/-- `StepStatusSchema`: `"active" | "completed" | "failed" | "delayed"`. -/
inductive StepStatus where
  | active
  | completed
  | failed
  | delayed
deriving DecidableEq, Repr

/-- `StepTypeSchema`:
`"run" | "sleep" | "sleep-until" | "repeat" | "invoke-wait-for-result"`. -/
inductive StepTypeT where
  | run
  | sleep
  | sleepUntil
  | repeatT
  | invokeWaitForResult
deriving DecidableEq, Repr

/-- `JobMetricsSchema` (also reused as the per-step metrics record):
`{startedAt?, completedAt?, failedAt?, duration?, attempts (default 0)}`. -/
structure Metrics where
  startedAt : Option Int := none
  completedAt : Option Int := none
  failedAt : Option Int := none
  duration : Option Int := none
  attempts : Int := 0
deriving DecidableEq, Repr

/-- `StepStateSchema`: `{type, status (default active), result?, error?,
metrics (default {})}`.  `result` and `error` are `z.any().nullish()` and are
kept as raw `JSVal`s. -/
structure StepStateR where
  type : StepTypeT
  status : StepStatus
  result : JSVal
  error : JSVal
  metrics : Metrics

/-- `JobInvocationSchema`: `{fnId, stepId}`. -/
structure InvocationR where
  fnId : String
  stepId : String
deriving DecidableEq, Repr

/-- `JobErrorSchema`: `{stepId, errorMessage?, error?}`. -/
structure JobErrorR where
  stepId : String
  errorMessage : Option String
  error : JSVal

/-- `JobLogLevelSchema`: `"debug" | "info" | "warn" | "error"`. -/
inductive LogLevel where
  | debug
  | info
  | warn
  | error
deriving DecidableEq, Repr

/-- `JobLogSchema`: `{ts, level (default debug), message, metadata?}`. -/
structure JobLogR where
  ts : Int
  level : LogLevel
  message : String
  metadata : JSVal

/-- `JobStateSchema`: the persisted per-job record.  Field names in the
source carry a `__` prefix (`__openqueue`, `__source`, ...). -/
structure JobState where
  openqueue : Bool
  source : JSVal
  invocations : List InvocationR
  metrics : Metrics
  errors : List JobErrorR
  steps : List (String × StepStateR)
  logs : List JobLogR

/-! ## zod parsing (`JobStateSchema.safeParse` / `.parse`)

Each `parseX` function models the corresponding zod schema applied to a raw
`JSVal`; `none` is a parse failure.  `z.default(d)` applies when the input is
`undefined` (a missing key reads as `undefined`); `z.nullish()` accepts `null`
and `undefined`.  Parsed optional numerics collapse `null`/`undefined` to
`Option.none`. -/

/-- `z.boolean()`. -/
def parseBool : JSVal → Option Bool
  | .bool b => some b
  | _ => none

/-- `z.number()` (rejects NaN). -/
def parseNum : JSVal → Option Int
  | .num n => some n
  | _ => none

/-- `z.string()`. -/
def parseStr : JSVal → Option String
  | .str s => some s
  | _ => none

/-- `z.number().nullish()`. -/
def parseOptNum : JSVal → Option (Option Int)
  | .null => some none
  | .undefined => some none
  | .num n => some (some n)
  | _ => none

/-- `z.string().nullish()`. -/
def parseOptStr : JSVal → Option (Option String)
  | .null => some none
  | .undefined => some none
  | .str s => some (some s)
  | _ => none

/-- `z.number().default(0)` (the `attempts` field). -/
def parseNumDefault0 : JSVal → Option Int
  | .undefined => some 0
  | .num n => some n
  | _ => none

/-- `JobMetricsSchema` on an object value. -/
def parseMetricsObj (v : JSVal) : Option Metrics :=
  match v with
  | .obj fs => do
      let startedAt ← parseOptNum ((alistGet fs "startedAt").getD .undefined)
      let completedAt ← parseOptNum ((alistGet fs "completedAt").getD .undefined)
      let failedAt ← parseOptNum ((alistGet fs "failedAt").getD .undefined)
      let duration ← parseOptNum ((alistGet fs "duration").getD .undefined)
      let attempts ← parseNumDefault0 ((alistGet fs "attempts").getD .undefined)
      pure ⟨startedAt, completedAt, failedAt, duration, attempts⟩
  | _ => none

/-- `JobMetricsSchema.default({})`. -/
def parseMetrics (v : JSVal) : Option Metrics :=
  match v with
  | .undefined => parseMetricsObj (.obj [])
  | other => parseMetricsObj other

/-- `StepTypeSchema`. -/
def parseStepType : JSVal → Option StepTypeT
  | .str "run" => some .run
  | .str "sleep" => some .sleep
  | .str "sleep-until" => some .sleepUntil
  | .str "repeat" => some .repeatT
  | .str "invoke-wait-for-result" => some .invokeWaitForResult
  | _ => none

/-- `StepStatusSchema.default("active")`. -/
def parseStepStatus : JSVal → Option StepStatus
  | .undefined => some .active
  | .str "active" => some .active
  | .str "completed" => some .completed
  | .str "failed" => some .failed
  | .str "delayed" => some .delayed
  | _ => none

/-- `StepStateSchema`. -/
def parseStepState (v : JSVal) : Option StepStateR :=
  match v with
  | .obj fs => do
      let ty ← parseStepType ((alistGet fs "type").getD .undefined)
      let status ← parseStepStatus ((alistGet fs "status").getD .undefined)
      let result := (alistGet fs "result").getD .undefined
      let error := (alistGet fs "error").getD .undefined
      let metrics ← parseMetrics ((alistGet fs "metrics").getD .undefined)
      pure ⟨ty, status, result, error, metrics⟩
  | _ => none

/-- Parse every element of a list with `p` (`z.array` body / `z.record`
values). -/
def parseList {α : Type} (p : JSVal → Option α) : List JSVal → Option (List α)
  | [] => some []
  | v :: rest => do
      let a ← p v
      let as ← parseList p rest
      pure (a :: as)

/-- Parse every value of an association list with `p` (`z.record(...)`). -/
def parseRecord {α : Type} (p : JSVal → Option α) :
    List (String × JSVal) → Option (List (String × α))
  | [] => some []
  | (k, v) :: rest => do
      let a ← p v
      let as ← parseRecord p rest
      pure ((k, a) :: as)

/-- `JobInvocationSchema`. -/
def parseInvocation (v : JSVal) : Option InvocationR :=
  match v with
  | .obj fs => do
      let fnId ← parseStr ((alistGet fs "fnId").getD .undefined)
      let stepId ← parseStr ((alistGet fs "stepId").getD .undefined)
      pure ⟨fnId, stepId⟩
  | _ => none

/-- `JobErrorSchema`. -/
def parseJobError (v : JSVal) : Option JobErrorR :=
  match v with
  | .obj fs => do
      let stepId ← parseStr ((alistGet fs "stepId").getD .undefined)
      let errorMessage ← parseOptStr ((alistGet fs "errorMessage").getD .undefined)
      let error := (alistGet fs "error").getD .undefined
      pure ⟨stepId, errorMessage, error⟩
  | _ => none

/-- `JobLogLevelSchema.default("debug")`. -/
def parseLogLevel : JSVal → Option LogLevel
  | .undefined => some .debug
  | .str "debug" => some .debug
  | .str "info" => some .info
  | .str "warn" => some .warn
  | .str "error" => some .error
  | _ => none

/-- `JobLogSchema`. -/
def parseJobLog (v : JSVal) : Option JobLogR :=
  match v with
  | .obj fs => do
      let ts ← parseNum ((alistGet fs "ts").getD .undefined)
      let level ← parseLogLevel ((alistGet fs "level").getD .undefined)
      let message ← parseStr ((alistGet fs "message").getD .undefined)
      let metadata := (alistGet fs "metadata").getD .undefined
      pure ⟨ts, level, message, metadata⟩
  | _ => none

/-- `X.array().default([])` given the element parser. -/
def parseArrDefault {α : Type} (p : JSVal → Option α) (v : JSVal) :
    Option (List α) :=
  match v with
  | .undefined => some []
  | .arr elems => parseList p elems
  | _ => none

/-- `JobStateSchema.safeParse`: `__openqueue` and `__steps` are required,
the remaining container fields carry defaults, `__source` is `z.any()`. -/
def safeParseJobState (v : JSVal) : Option JobState :=
  match v with
  | .obj fs => do
      let openqueue ← parseBool ((alistGet fs "__openqueue").getD .undefined)
      let source := (alistGet fs "__source").getD .undefined
      let invocations ←
        parseArrDefault parseInvocation ((alistGet fs "__invocations").getD .undefined)
      let metrics ← parseMetrics ((alistGet fs "__metrics").getD .undefined)
      let errors ←
        parseArrDefault parseJobError ((alistGet fs "__errors").getD .undefined)
      let steps ←
        match (alistGet fs "__steps").getD .undefined with
        | .obj stepFields => parseRecord parseStepState stepFields
        | _ => none
      let logs ←
        parseArrDefault parseJobLog ((alistGet fs "__logs").getD .undefined)
      pure ⟨openqueue, source, invocations, metrics, errors, steps, logs⟩
  | _ => none

/-! ## Serialisation back to raw values

A parsed `JobState` is itself a plain JS object; feeding it back through the
schema (as the re-entry `prepareData` call does) is modelled by `toJSVal`
followed by `safeParseJobState`. -/

/-- Serialise an optional number (`none` was `undefined`). -/
def optNumVal : Option Int → JSVal
  | none => .undefined
  | some n => .num n

def Metrics.toJSVal (m : Metrics) : JSVal :=
  .obj [("startedAt", optNumVal m.startedAt),
        ("completedAt", optNumVal m.completedAt),
        ("failedAt", optNumVal m.failedAt),
        ("duration", optNumVal m.duration),
        ("attempts", .num m.attempts)]

def StepTypeT.toJSVal : StepTypeT → JSVal
  | .run => .str "run"
  | .sleep => .str "sleep"
  | .sleepUntil => .str "sleep-until"
  | .repeatT => .str "repeat"
  | .invokeWaitForResult => .str "invoke-wait-for-result"

def StepStatus.toJSVal : StepStatus → JSVal
  | .active => .str "active"
  | .completed => .str "completed"
  | .failed => .str "failed"
  | .delayed => .str "delayed"

def StepStateR.toJSVal (s : StepStateR) : JSVal :=
  .obj [("type", s.type.toJSVal),
        ("status", s.status.toJSVal),
        ("result", s.result),
        ("error", s.error),
        ("metrics", s.metrics.toJSVal)]

def InvocationR.toJSVal (i : InvocationR) : JSVal :=
  .obj [("fnId", .str i.fnId), ("stepId", .str i.stepId)]

def optStrVal : Option String → JSVal
  | none => .undefined
  | some s => .str s

def JobErrorR.toJSVal (e : JobErrorR) : JSVal :=
  .obj [("stepId", .str e.stepId),
        ("errorMessage", optStrVal e.errorMessage),
        ("error", e.error)]

def LogLevel.toJSVal : LogLevel → JSVal
  | .debug => .str "debug"
  | .info => .str "info"
  | .warn => .str "warn"
  | .error => .str "error"

def JobLogR.toJSVal (l : JobLogR) : JSVal :=
  .obj [("ts", .num l.ts),
        ("level", l.level.toJSVal),
        ("message", .str l.message),
        ("metadata", l.metadata)]

def JobState.toJSVal (js : JobState) : JSVal :=
  .obj [("__openqueue", .bool js.openqueue),
        ("__source", js.source),
        ("__invocations", .arr (js.invocations.map InvocationR.toJSVal)),
        ("__metrics", js.metrics.toJSVal),
        ("__errors", .arr (js.errors.map JobErrorR.toJSVal)),
        ("__steps", .obj (js.steps.map (fun p => (p.1, p.2.toJSVal)))),
        ("__logs", .arr (js.logs.map JobLogR.toJSVal))]

/-! ## `JobStateManager.prepareData` (static) -/

/-- The wrapped `JobState` built by `prepareData` for raw data that is not
already a valid `JobState`:
`{__openqueue: true, __source: data, __invocations: [], __metrics: {},
__errors: [], __steps: {}, __logs: []}` after `JobStateSchema.parse`. -/
def wrapData (data : JSVal) : JobState :=
  { openqueue := true
    source := data
    invocations := []
    metrics := {}
    errors := []
    steps := []
    logs := [] }

/-- `JobStateManager.prepareData` (static): if the raw data already parses as
a `JobState`, return it as-is with `wasPrepared = true`; otherwise wrap it. -/
def prepareData (data : JSVal) : Bool × JobState :=
  match safeParseJobState data with
  | some js => (true, js)
  | none => (false, wrapData data)

/-! ## Round-trip lemmas: a parsed `JobState` re-parses to itself -/

theorem parseOptNum_optNumVal (o : Option Int) :
    parseOptNum (optNumVal o) = some o := by
  cases o <;> rfl

theorem parseOptStr_optStrVal (o : Option String) :
    parseOptStr (optStrVal o) = some o := by
  cases o <;> rfl

theorem parseMetrics_toJSVal (m : Metrics) : parseMetrics m.toJSVal = some m := by
  rcases m with ⟨s, c, f, d, a⟩
  cases s <;> cases c <;> cases f <;> cases d <;> rfl

theorem parseStepType_toJSVal (t : StepTypeT) :
    parseStepType t.toJSVal = some t := by
  cases t <;> rfl

theorem parseStepStatus_toJSVal (s : StepStatus) :
    parseStepStatus s.toJSVal = some s := by
  cases s <;> rfl

theorem parseStepState_toJSVal (s : StepStateR) :
    parseStepState s.toJSVal = some s := by
  rcases s with ⟨ty, st, r, e, m⟩
  simp [parseStepState, StepStateR.toJSVal, alistGet,
    parseStepType_toJSVal, parseStepStatus_toJSVal, parseMetrics_toJSVal]

theorem parseLogLevel_toJSVal (l : LogLevel) :
    parseLogLevel l.toJSVal = some l := by
  cases l <;> rfl

theorem parseInvocation_toJSVal (i : InvocationR) :
    parseInvocation i.toJSVal = some i := rfl

theorem parseJobError_toJSVal (e : JobErrorR) :
    parseJobError e.toJSVal = some e := by
  rcases e with ⟨sid, msg, err⟩
  cases msg <;> rfl

theorem parseJobLog_toJSVal (l : JobLogR) :
    parseJobLog l.toJSVal = some l := by
  rcases l with ⟨ts, lv, msg, md⟩
  simp [parseJobLog, JobLogR.toJSVal, alistGet, parseNum, parseStr,
    parseLogLevel_toJSVal]

theorem parseList_map {α : Type} (p : JSVal → Option α) (f : α → JSVal)
    (h : ∀ a, p (f a) = some a) (l : List α) :
    parseList p (l.map f) = some l := by
  induction l with
  | nil => rfl
  | cons a rest ih => simp [parseList, h, ih]

theorem parseRecord_map {α : Type} (p : JSVal → Option α) (f : α → JSVal)
    (h : ∀ a, p (f a) = some a) (l : List (String × α)) :
    parseRecord p (l.map (fun q => (q.1, f q.2))) = some l := by
  induction l with
  | nil => rfl
  | cons kv rest ih => simp [parseRecord, h, ih]

/-- The central round-trip fact: any parsed `JobState`, written back as a raw
job-data value, re-parses successfully to the same `JobState`. -/
theorem safeParse_toJSVal (js : JobState) :
    safeParseJobState js.toJSVal = some js := by
  rcases js with ⟨oq, src, invs, m, errs, steps, logs⟩
  simp [safeParseJobState, JobState.toJSVal, alistGet, parseBool,
    parseMetrics_toJSVal, parseArrDefault,
    parseList_map parseInvocation InvocationR.toJSVal parseInvocation_toJSVal,
    parseList_map parseJobError JobErrorR.toJSVal parseJobError_toJSVal,
    parseList_map parseJobLog JobLogR.toJSVal parseJobLog_toJSVal,
    parseRecord_map parseStepState StepStateR.toJSVal parseStepState_toJSVal]

/-! ## Execution state

One job dispatch owns a `JobStateManager` (`this.data` + the handle cache
`this.steps`) over a BullMQ job whose mutable data slot holds the persisted
record.  `aliased = true` on a handle means the handle's `data` object is the
very object stored in `this.data.__steps` (as set up by `forStep` for a
pre-existing step), so in-place mutations through the handle are visible in
the blob.  `JobStateSchema.parse` inside `updateData` deep-copies the blob
(`this.data = parsed`), which detaches every handle from the new blob. -/

structure StepHandle where
  sdata : StepStateR
  aliased : Bool

/-- The state touched by one job dispatch: the in-memory blob (`this.data`),
the handle cache (`this.steps`), the job's persisted data slot, and the
externally visible queue effects of this dispatch (`changePriority`,
`moveToDelayed`, `updateData` on invoked jobs). -/
structure ExecState where
  mem : JobState
  handles : List (String × StepHandle)
  persisted : JobState
  priorityVal : Option Int := none
  delayedUntil : Option Int := none
  extWrites : List (String × JobState) := []

/-- The fresh `StepState` built by the `StepStateManager` constructor when no
prior state exists: `{type, status: "active", result: null, error: null,
metrics: {}}` after `StepStateSchema.parse`. -/
def freshStep (ty : StepTypeT) : StepStateR :=
  { type := ty
    status := .active
    result := .null
    error := .null
    metrics := {} }

/-- `JobStateManager.forStep(stepId, type)`: reuse a cached handle, else wrap
any pre-existing `StepState` from the blob (aliased), else create a fresh one
(detached until `finish`). -/
def ExecState.forStep (st : ExecState) (id : String) (ty : StepTypeT) :
    ExecState :=
  match alistGet st.handles id with
  | some _ => st
  | none =>
      match alistGet st.mem.steps id with
      | some s => { st with handles := st.handles ++ [(id, ⟨s, true⟩)] }
      | none => { st with handles := st.handles ++ [(id, ⟨freshStep ty, false⟩)] }

/-- Read the handle's current `StepState` (defined after `forStep` has run;
the default is never reached in the embedded code paths). -/
def ExecState.getStep (st : ExecState) (id : String) : StepStateR :=
  ((alistGet st.handles id).map StepHandle.sdata).getD (freshStep .run)

/-- Mutate a step through its handle; when the handle aliases the blob the
same mutation lands in `mem.__steps`. -/
def ExecState.setStep (st : ExecState) (id : String)
    (f : StepStateR → StepStateR) : ExecState :=
  { st with
    handles := st.handles.map
      (fun p => if p.1 = id then (p.1, ⟨f p.2.sdata, p.2.aliased⟩) else p)
    mem :=
      if (alistGet st.handles id).map StepHandle.aliased = some true then
        { st.mem with steps := alistSet st.mem.steps id (f (st.getStep id)) }
      else st.mem }

/-- `JobStateManager.updateData`: `JobStateSchema.parse(this.data)` (the
identity on the already-parsed blob, but a deep copy that detaches all
handles), the `__source.__openqueue` nesting guard, then
`bullJob.updateData(parsed)`.  Returns the thrown error, if any. -/
def ExecState.updateData (st : ExecState) : ExecState × Option String :=
  if truthy (jsGet st.mem.source "__openqueue") then
    (st, some "Cannot have source data with __openqueue property")
  else
    ({ st with
       persisted := st.mem
       handles := st.handles.map (fun p => (p.1, ⟨p.2.sdata, false⟩)) }, none)

/-- `JobStateManager.getStepsData` + `finish`: replace `this.data.__steps`
with the handles' states (after which every handle aliases the blob again). -/
def ExecState.finish (st : ExecState) : ExecState :=
  { st with
    mem := { st.mem with steps := st.handles.map (fun p => (p.1, p.2.sdata)) }
    handles := st.handles.map (fun p => (p.1, ⟨p.2.sdata, true⟩)) }

/-- `JobStateManager.start`: set `__metrics.startedAt` if unset. -/
def ExecState.jobStart (now : Int) (st : ExecState) : ExecState :=
  match st.mem.metrics.startedAt with
  | some _ => st
  | none =>
      { st with mem :=
          { st.mem with metrics := { st.mem.metrics with startedAt := some now } } }

/-- `JobStateManager.complete`: set `__metrics.completedAt`. -/
def ExecState.jobComplete (now : Int) (st : ExecState) : ExecState :=
  { st with mem :=
      { st.mem with metrics := { st.mem.metrics with completedAt := some now } } }

/-- `ActiveJobExecutor.wrapUp`: push the context's buffered logs into
`this.data.__logs`. -/
def ExecState.wrapUp (ctxLogs : List JobLogR) (st : ExecState) : ExecState :=
  { st with mem := { st.mem with logs := st.mem.logs ++ ctxLogs } }

/-! ## `StepStateManager` operations (`job-state.ts`) -/

/-- `StepStateManager.start`: `status = "active"`,
`metrics.startedAt = Date.now()`. -/
def StepStateManager.start (now : Int) (s : StepStateR) : StepStateR :=
  { s with status := .active
           metrics := { s.metrics with startedAt := some now } }

/-- `StepStateManager.complete(result)`: `status = "completed"`, store the
result, `completedAt = now`, `duration = completedAt - (startedAt ?? now)`. -/
def StepStateManager.complete (now : Int) (result : JSVal) (s : StepStateR) :
    StepStateR :=
  { s with status := .completed
           result := result
           metrics := { s.metrics with
                        completedAt := some now
                        duration := some (now - (s.metrics.startedAt.getD now)) } }

/-- `StepStateManager.error(e)`: `status = "failed"`,
`error = e?.toString ?? "N/A"` (note: the `toString` method itself, not its
result — the property is not called), `metrics.failedAt = Date.now()`. -/
def StepStateManager.error (now : Int) (e : JSVal) (s : StepStateR) :
    StepStateR :=
  { s with status := .failed
           error := optionalToStringMethod e
           metrics := { s.metrics with failedAt := some now } }

/-! ## Thrown values and step results (`executor.ts`) -/

/-- Values thrown across step boundaries: the BullMQ `DelayedError` Suspend
sentinel, the `UnrecoverableError` sentinel, and ordinary `Error` objects.
All three are `instanceof Error`. -/
inductive Thrown where
  | delayedErr
  | unrecoverableErr (msg : String)
  | errObj (msg : String)
deriving DecidableEq, Repr

/-- The JS object value of a thrown error as seen by `StepStateManager.error`
(a non-nullish `Error` instance). -/
def thrownJS : Thrown → JSVal
  | .delayedErr => .obj [("name", .str "DelayedError")]
  | .unrecoverableErr m => .obj [("name", .str "UnrecoverableError"), ("message", .str m)]
  | .errObj m => .obj [("name", .str "Error"), ("message", .str m)]

/-- `ExecuteStepResult<T>`: `{success, ran, result}`. -/
structure StepResult where
  success : Bool
  ran : Bool
  result : JSVal

/-- Result of one step-primitive call: the final dispatch state, the normal
return or thrown value, and the number of times the user-supplied `run`
function was invoked (0 for the primitives without one). -/
structure PrimOut where
  st : ExecState
  out : Except Thrown StepResult
  fnCalls : Nat

/-- Workflow-level configuration consulted by `executeSleep`:
`getDefaultJobOptions().priority?.delayDefaultValue`. -/
structure WorkflowCfg where
  delayPriorityDefault : Option Int := none

/-! ## `StepExecutor.executeRun` (second, complete variant)

`catch (e)`: logs, converts `e` to an `Error` instance (the identity for all
modelled throwables), records `stepState.error(error)`, persists and
rethrows.  Note there is no sentinel check: `DelayedError` and
`UnrecoverableError` take the same path.  A failure of the in-`try`
`updateData` is itself caught by this catch. -/

def runCatch (now : Int) (id : String) (e : Thrown) (calls : Nat)
    (st : ExecState) : PrimOut :=
  let st := st.setStep id (StepStateManager.error now (thrownJS e))
  match st.updateData with
  | (st', none) => ⟨st', .error e, calls⟩
  | (st', some msg) => ⟨st', .error (.errObj msg), calls⟩

/-- `executeRun({id, run})`.  The user function's behaviour is its returned
value or thrown error, passed in as `fnBeh`. -/
def executeRun (now : Int) (id : String) (fnBeh : Except Thrown JSVal)
    (st : ExecState) : PrimOut :=
  let st := st.forStep id .run
  let s := st.getStep id
  if s.status = .completed then
    ⟨st, .ok ⟨true, false, s.result⟩, 0⟩
  else
    match fnBeh with
    | .ok v =>
        let st := st.setStep id (StepStateManager.complete now v)
        match st.updateData with
        | (st', none) => ⟨st', .ok ⟨true, true, v⟩, 1⟩
        | (st', some msg) => runCatch now id (.errObj msg) 1 st'
    | .error e => runCatch now id e 1 st

/-! ## `StepExecutor.executeSleep` / `executeSleepUntil` (second variant)

Note the branch condition is `status === "delayed"` only — there is no
`status === "completed"` short-circuit, so any non-`delayed` status
(including `completed`) takes the first-call branch. -/

/-- `executeSleep({id, duration, stepState?})`.  `ty` is the step type used
when the handle is created (`sleep`, or `sleep-until` when dispatched from
`executeSleepUntil`, which pre-creates the handle). -/
def executeSleep (wf : WorkflowCfg) (now : Int) (id : String) (duration : Int)
    (ty : StepTypeT) (st : ExecState) : PrimOut :=
  let st := st.forStep id ty
  let s := st.getStep id
  if s.status = .delayed then
    -- resumption after the delay: complete(true), persist, return
    let st := st.setStep id (StepStateManager.complete now (.bool true))
    match st.updateData with
    | (st', none) => ⟨st', .ok ⟨true, true, .bool true⟩, 0⟩
    | (st', some msg) => ⟨st', .error (.errObj msg), 0⟩
  else
    -- first-call branch: start(), status = "delayed", persist, change the
    -- priority to the delayed default, move to the delayed set, raise Suspend
    let st := st.setStep id
      (fun s => { StepStateManager.start now s with status := .delayed })
    match st.updateData with
    | (st', none) =>
        let st' := { st' with
          priorityVal := some (wf.delayPriorityDefault.getD 1)
          delayedUntil := some (now + duration) }
        ⟨st', .error .delayedErr, 0⟩
    | (st', some msg) => ⟨st', .error (.errObj msg), 0⟩

/-- `executeSleepUntil({id, timestamp})`: create the handle with type
`sleep-until` and dispatch to `executeSleep` with
`duration = timestamp - Date.now()`. -/
def executeSleepUntil (wf : WorkflowCfg) (now : Int) (id : String)
    (timestamp : Int) (st : ExecState) : PrimOut :=
  let st := st.forStep id .sleepUntil
  executeSleep wf now id (timestamp - now) .sleepUntil st

/-! ## `StepExecutor.executeRepeat` (second variant)

The protocol record `{attempt, lastResult, completed, needsDelay?}` lives in
`stepState.data.result`; the local `repeatState` variable aliases that very
object, so its mutations are modelled as writes through the handle.  The
`every == 0` branch re-enters the algorithm by an in-process recursive call
placed *inside* the `try`, so an error thrown by the inner call is caught
(and re-recorded) by every enclosing level's `catch`.  The recursion is
bounded in Lean by explicit fuel; the fuel-exhausted branch is unreachable
whenever the stored `attempt` is a number `≥ 0` (the only values the code
itself ever writes), since each recursive call strictly increases `attempt`
toward `limit`. -/

/-- The fresh protocol record `{attempt: 0, lastResult: false, completed:
false}`. -/
def repInit : JSVal :=
  .obj [("attempt", .num 0), ("lastResult", .bool false), ("completed", .bool false)]

/-- `options.every && options.every > 0` (`undefined` and `0` are falsy). -/
def everyPos : Option Int → Bool
  | some e => e > 0
  | none => false

/-- The `catch` block of `executeRepeat`: `DelayedError` is rethrown
untouched; `UnrecoverableError` is recorded (`error(e)` plus the redundant
`status = "failed"`), persisted and rethrown; any other error is converted,
recorded, persisted and rethrown. -/
def repCatch (now : Int) (id : String) (e : Thrown) (calls : Nat)
    (st : ExecState) : PrimOut :=
  match e with
  | .delayedErr => ⟨st, .error .delayedErr, calls⟩
  | .unrecoverableErr m =>
      let st := st.setStep id
        (fun s => { StepStateManager.error now (thrownJS (.unrecoverableErr m)) s
                    with status := .failed })
      match st.updateData with
      | (st', none) => ⟨st', .error (.unrecoverableErr m), calls⟩
      | (st', some msg) => ⟨st', .error (.errObj msg), calls⟩
  | .errObj m =>
      let st := st.setStep id (StepStateManager.error now (thrownJS (.errObj m)))
      match st.updateData with
      | (st', none) => ⟨st', .error (.errObj m), calls⟩
      | (st', some msg) => ⟨st', .error (.errObj msg), calls⟩

/-- The `return this.executeRepeat(options)` tail: the recursive call sits
inside the `try`, so a normal result passes through while a thrown error is
handled by this level's `catch` as well. -/
def repTail (now : Int) (id : String) (r : PrimOut) : PrimOut :=
  match r.out with
  | .ok _ => r
  | .error e => repCatch now id e r.fnCalls r.st

/-- The attempt section of `executeRepeat` (the `attempt >= limit` check and
the `try { const result = await options.run() ... }` block), entered after
the completed-check, the protocol-record initialisation and the
delay-resumption phases have run.  `go` is the in-process re-entry
`this.executeRepeat(options)` used by the `every == 0` branch. -/
def repAttemptPhase (now : Int) (id : String) (limit : Int)
    (every : Option Int) (fn : Nat → Except Thrown JSVal)
    (go : Nat → ExecState → PrimOut) (calls : Nat) (st : ExecState) :
    PrimOut :=
  let s := st.getStep id
  -- exhaustion check: `repeatState.attempt >= options.limit`
  if jsGe (jsGet s.result "attempt") limit then
    let st := st.setStep id (StepStateManager.complete now (.bool false))
    match st.updateData with
    | (st', none) => ⟨st', .ok ⟨true, true, .bool false⟩, calls⟩
    | (st', some msg) => ⟨st', .error (.errObj msg), calls⟩
  else
    match fn calls with
    | .error e => repCatch now id e (calls + 1) st
    | .ok v =>
      -- repeatState.attempt++; repeatState.lastResult = result
      let st := st.setStep id
        (fun s =>
          let r := jsSet s.result "attempt" (jsIncr (jsGet s.result "attempt"))
          { s with result := jsSet r "lastResult" v })
      let s := st.getStep id
      if truthy v then
        let st := st.setStep id (StepStateManager.complete now v)
        match st.updateData with
        | (st', none) => ⟨st', .ok ⟨true, true, v⟩, calls + 1⟩
        | (st', some msg) => repCatch now id (.errObj msg) (calls + 1) st'
      else if everyPos every ∧ jsLt (jsGet s.result "attempt") limit then
        let st := st.setStep id
          (fun s => { s with status := .delayed
                             result := jsSet s.result "needsDelay" (.bool true) })
        match st.updateData with
        | (st', none) =>
            let st' := { st' with
              delayedUntil := some (now + (every.getD 0)) }
            ⟨st', .error .delayedErr, calls + 1⟩
        | (st', some msg) => repCatch now id (.errObj msg) (calls + 1) st'
      else
        -- no pacing: persist `status = "active"` and self-invoke (the
        -- recursive call sits inside the `try`, so its thrown errors run
        -- through this level's catch as well)
        let st := st.setStep id (fun s => { s with status := .active })
        match st.updateData with
        | (st', none) => repTail now id (go (calls + 1) st')
        | (st', some msg) => repCatch now id (.errObj msg) (calls + 1) st'

/-- `executeRepeat({id, limit, every?, run})`, with `fn k` the user
function's behaviour on its `k`-th invocation of this dispatch and `calls`
the number of invocations made so far.  Structural recursion on the fuel,
so concrete runs evaluate definitionally. -/
def executeRepeatGo (now : Int) (id : String) (limit : Int)
    (every : Option Int) (fn : Nat → Except Thrown JSVal) (calls : Nat)
    (fuel : Nat) (st : ExecState) : PrimOut :=
  match fuel with
  | 0 => ⟨st, .error (.errObj "fuel exhausted"), 0⟩
  | fuel + 1 =>
    let st := st.forStep id .repeatT
    let s := st.getStep id
    if s.status = .completed then
      ⟨st, .ok ⟨true, false, s.result⟩, calls⟩
    else
      -- initialise the protocol record on first entry (`if (!repeatState)`)
      let initStep :=
        if truthy s.result then (st, none)
        else
          (st.setStep id
            (fun s => { StepStateManager.start now s with result := repInit })).updateData
      match initStep with
      | (st, some msg) => ⟨st, .error (.errObj msg), calls⟩
      | (st, none) =>
        let s := st.getStep id
        -- resumption from an inter-attempt delay
        let delayStep :=
          if s.status = .delayed ∧ truthy (jsGet s.result "needsDelay") then
            (st.setStep id
              (fun s => { s with status := .active
                                 result := jsSet s.result "needsDelay" (.bool false) })).updateData
          else (st, none)
        match delayStep with
        | (st, some msg) => ⟨st, .error (.errObj msg), calls⟩
        | (st, none) =>
            repAttemptPhase now id limit every fn
              (fun c s => executeRepeatGo now id limit every fn c fuel s)
              calls st

/-- `executeRepeat` entry point: fuel `limit.toNat + 1` never runs out for
the states the code itself produces (stored `attempt` a number `≥ 0`). -/
def executeRepeat (now : Int) (id : String) (limit : Int) (every : Option Int)
    (fn : Nat → Except Thrown JSVal) (st : ExecState) : PrimOut :=
  executeRepeatGo now id limit every fn 0 (limit.toNat + 1) st

/-! ## `StepExecutor.executeInvoke` (second variant) -/

/-- The queue environment consulted by `executeInvoke`:
whether `__client.__workflows[options.workflow]` is registered, the outcome
of `targetWorkflow.createJob(options.data)` (the new job's id and its raw
data slot), whether `getBullJob` finds the invoked job on resumption, and
the invoked job's external BullMQ state and `returnvalue`. -/
structure InvokeEnv where
  targetExists : Bool
  createJobOutcome : Except Thrown (String × JSVal)
  jobFound : Bool
  extState : String → String
  returnValue : String → JSVal

/-- The string form of a stored job id (job ids are strings; any other truthy
stored value is approximated by `""`, never produced by this code). -/
def jsAsString : JSVal → String
  | .str s => s
  | _ => ""

/-- The `catch` of `executeInvoke`'s first-call branch: `DelayedError` is
rethrown untouched, anything else is converted, recorded on the step,
persisted and rethrown. -/
def invCatch (now : Int) (id : String) (e : Thrown) (st : ExecState) : PrimOut :=
  match e with
  | .delayedErr => ⟨st, .error .delayedErr, 0⟩
  | other =>
      let st := st.setStep id (StepStateManager.error now (thrownJS other))
      match st.updateData with
      | (st', none) => ⟨st', .error other, 0⟩
      | (st', some msg) => ⟨st', .error (.errObj msg), 0⟩

/-- `executeInvoke({id, workflow, data})` for a caller workflow whose id is
`wfId`. -/
def executeInvoke (wfId : String) (now : Int) (id : String) (env : InvokeEnv)
    (st : ExecState) : PrimOut :=
  let st := st.forStep id .invokeWaitForResult
  let s := st.getStep id
  if s.status = .completed then
    ⟨st, .ok ⟨true, false, s.result⟩, 0⟩
  else if s.status = .delayed then
    -- resumption: poll the invoked job's external state
    let jid := jsGet s.result "jobId"
    if ¬ truthy jid then
      ⟨st, .error (.errObj ("No invoked job ID found for step " ++ id)), 0⟩
    else if ¬ env.targetExists then
      ⟨st, .error (.errObj "Workflow not found"), 0⟩
    else if ¬ env.jobFound then
      ⟨st, .error (.errObj ("Invoked job " ++ jsAsString jid ++ " not found")), 0⟩
    else
      match env.extState (jsAsString jid) with
      | "completed" =>
          let rv := env.returnValue (jsAsString jid)
          let st := st.setStep id (StepStateManager.complete now rv)
          match st.updateData with
          | (st', none) => ⟨st', .ok ⟨true, true, rv⟩, 0⟩
          | (st', some msg) => ⟨st', .error (.errObj msg), 0⟩
      | "failed" =>
          let e : Thrown := .errObj ("Invoked job " ++ jsAsString jid ++ " failed")
          let st := st.setStep id (StepStateManager.error now (thrownJS e))
          match st.updateData with
          | (st', none) => ⟨st', .error e, 0⟩
          | (st', some msg) => ⟨st', .error (.errObj msg), 0⟩
      | _ =>
          -- still running: delay self by the 1s poll interval and Suspend
          ⟨{ st with delayedUntil := some (now + 1000) }, .error .delayedErr, 0⟩
  else
    -- first call (fresh, active or failed step): create the target job
    if ¬ env.targetExists then
      invCatch now id (.errObj "Workflow not found") st
    else
      match env.createJobOutcome with
      | .error e => invCatch now id e st
      | .ok (jid, invokedJobData) =>
          let st := st.setStep id
            (fun s => { StepStateManager.start now s with
                        result := .obj [("jobId", .str jid)]
                        status := .delayed })
          match st.updateData with
          | (st', some msg) => invCatch now id (.errObj msg) st'
          | (st', none) =>
              -- append `{fnId, stepId}` to the invoked job's `__invocations`
              let prep := prepareData invokedJobData
              let st' :=
                if prep.2.openqueue then
                  { st' with extWrites := st'.extWrites ++
                      [(jid, { prep.2 with invocations :=
                          prep.2.invocations ++ [⟨wfId, id⟩] })] }
                else st'
              ⟨{ st' with delayedUntil := some (now + 1000) }, .error .delayedErr, 0⟩

/-! ## `ActiveJobExecutor.execute`

The repository contains two divergent variants of this driver.  The user
workflow function is modelled as a state transformer `fnEff` returning its
value or thrown error; the invocation-promotion block (second variant, lines
342-403, which swallows every per-invocation error) is abstracted as a state
transformer `notify`. -/

/-- Second (complete) variant: sentinels and ordinary errors alike are
rethrown after the `finally` block (`wrapUp`, `state.finish()`,
`state.updateData()`) has run. -/
def ActiveJobExecutor.executeV2 (now : Int)
    (fnEff : ExecState → ExecState × Except Thrown JSVal)
    (notify : ExecState → ExecState) (ctxLogs : List JobLogR)
    (st : ExecState) : ExecState × Except Thrown JSVal :=
  let st := ExecState.jobStart now st
  match fnEff st with
  | (st, .ok v) =>
      let st := ExecState.jobComplete now st
      let st := notify st
      let st := (st.wrapUp ctxLogs).finish
      match st.updateData with
      | (st', none) => (st', .ok v)
      | (st', some msg) => (st', .error (.errObj msg))
  | (st, .error e) =>
      -- catch: DelayedError → throw e; UnrecoverableError → throw e;
      -- other → log and throw e.  finally runs before the caller sees it.
      let st := (st.wrapUp ctxLogs).finish
      match st.updateData with
      | (st', none) => (st', .error e)
      | (st', some msg) => (st', .error (.errObj msg))

/-- First (incomplete) variant: its `catch` returns `undefined` for the
sentinels and falls through (no rethrow) for ordinary errors, swallowing
them all. -/
def ActiveJobExecutor.executeV1 (now : Int)
    (fnEff : ExecState → ExecState × Except Thrown JSVal)
    (ctxLogs : List JobLogR) (st : ExecState) :
    ExecState × Except Thrown JSVal :=
  let st := ExecState.jobStart now st
  match fnEff st with
  | (st, .ok v) =>
      let st := ExecState.jobComplete now st
      let st := (st.wrapUp ctxLogs).finish
      match st.updateData with
      | (st', none) => (st', .ok v)
      | (st', some msg) => (st', .error (.errObj msg))
  | (st, .error _) =>
      let st := (st.wrapUp ctxLogs).finish
      match st.updateData with
      | (st', none) => (st', .ok .undefined)
      | (st', some msg) => (st', .error (.errObj msg))

/-! ## `Workflow.createJob` (`management/workflow.ts`) -/

/-- `createJob(data, options?)`: validate through the workflow's schema and
enqueue `JobStateManager.prepareData(parsedData).data` as the job's data.
`schemaParse` models a successful `this.__schema.parse` (a schema failure
throws to the caller and enqueues nothing). -/
def Workflow.createJob (schemaParse : JSVal → JSVal) (data : JSVal) :
    Bool × JobState :=
  prepareData (schemaParse data)

/-! ## Helper lemmas -/

theorem prepareData_toJSVal (js : JobState) :
    prepareData js.toJSVal = (true, js) := by
  simp [prepareData, safeParse_toJSVal]

@[simp] theorem wrapUp_mem_source (l : List JobLogR) (s : ExecState) :
    (s.wrapUp l).mem.source = s.mem.source := rfl

@[simp] theorem finish_mem_source (s : ExecState) :
    s.finish.mem.source = s.mem.source := rfl

@[simp] theorem jobStart_mem_source (now : Int) (s : ExecState) :
    (ExecState.jobStart now s).mem.source = s.mem.source := by
  unfold ExecState.jobStart
  cases s.mem.metrics.startedAt <;> rfl

@[simp] theorem setStep_mem_source (s : ExecState) (id : String)
    (f : StepStateR → StepStateR) :
    (s.setStep id f).mem.source = s.mem.source := by
  unfold ExecState.setStep
  split <;> rfl

@[simp] theorem forStep_mem_source (s : ExecState) (id : String)
    (ty : StepTypeT) : (s.forStep id ty).mem.source = s.mem.source := by
  unfold ExecState.forStep
  split
  · rfl
  · split <;> rfl

theorem updateData_ok (s : ExecState)
    (h : truthy (jsGet s.mem.source "__openqueue") = false) :
    s.updateData =
      ({ s with persisted := s.mem
                handles := s.handles.map (fun p => (p.1, ⟨p.2.sdata, false⟩)) },
       none) := by
  simp [ExecState.updateData, h]

theorem alistGet_append {α : Type} (l₁ l₂ : List (String × α)) (k : String) :
    alistGet (l₁ ++ l₂) k =
      match alistGet l₁ k with
      | some v => some v
      | none => alistGet l₂ k := by
  induction l₁ with
  | nil => rfl
  | cons p rest ih =>
      by_cases h : p.1 = k
      · simp [alistGet, h]
      · simp [alistGet, h, ih]

/-- Looking up a key after a key-preserving map that acts as `g` on the
values stored at that key. -/
theorem alistGet_map_key {α β : Type} (f : String × α → String × β)
    (g : α → β) (hf : ∀ p, (f p).1 = p.1)
    (l : List (String × α)) (k : String)
    (hg : ∀ p, p.1 = k → (f p).2 = g p.2) :
    alistGet (l.map f) k = (alistGet l k).map g := by
  induction l with
  | nil => rfl
  | cons p rest ih =>
      simp only [List.map]
      rw [show f p = ((f p).1, (f p).2) from rfl]
      simp only [alistGet, hf p]
      by_cases hpk : p.1 = k
      · rw [if_pos hpk, if_pos hpk, hg p hpk]
        rfl
      · rw [if_neg hpk, if_neg hpk, ih]

@[simp] theorem forStep_mem (st : ExecState) (id : String) (ty : StepTypeT) :
    (st.forStep id ty).mem = st.mem := by
  unfold ExecState.forStep
  split
  · rfl
  · split <;> rfl

@[simp] theorem forStep_persisted (st : ExecState) (id : String)
    (ty : StepTypeT) : (st.forStep id ty).persisted = st.persisted := by
  unfold ExecState.forStep
  split
  · rfl
  · split <;> rfl

@[simp] theorem setStep_persisted (st : ExecState) (id : String)
    (f : StepStateR → StepStateR) :
    (st.setStep id f).persisted = st.persisted := by
  unfold ExecState.setStep
  split <;> rfl

/-- After `forStep`, the handle for `id` exists. -/
theorem forStep_handle_isSome (st : ExecState) (id : String) (ty : StepTypeT) :
    (alistGet (st.forStep id ty).handles id).isSome := by
  unfold ExecState.forStep
  cases h : alistGet st.handles id with
  | some v => simp [h]
  | none =>
      cases h2 : alistGet st.mem.steps id <;>
        simp [h, alistGet_append, h2, alistGet]

/-- The handle map rewrite underlying `setStep` at the touched key. -/
theorem setStep_handles_get (st : ExecState) (id : String)
    (f : StepStateR → StepStateR) (k : String) :
    alistGet (st.setStep id f).handles k =
      if k = id then
        (alistGet st.handles k).map
          (fun q => (⟨f q.sdata, q.aliased⟩ : StepHandle))
      else alistGet st.handles k := by
  unfold ExecState.setStep
  dsimp only
  by_cases hk : k = id
  · rw [if_pos hk, hk]
    refine alistGet_map_key _ _ ?_ _ _ ?_
    · intro p
      by_cases hp : p.1 = id
      · simp [hp]
      · simp [hp]
    · intro p hp
      simp [hp]
  · rw [if_neg hk]
    have := alistGet_map_key
      (fun p => if p.1 = id then (p.1, ⟨f p.2.sdata, p.2.aliased⟩) else p)
      (fun q => q) ?_ st.handles k ?_
    · simpa using this
    · intro p
      by_cases hp : p.1 = id
      · simp [hp]
      · simp [hp]
    · intro p hp
      have : ¬ p.1 = id := fun hcon => hk (hp ▸ hcon ▸ rfl)
      simp [this]

/-- Reading a handle after mutating it through `setStep`. -/
theorem getStep_setStep (st : ExecState) (id : String)
    (f : StepStateR → StepStateR) (h : (alistGet st.handles id).isSome) :
    (st.setStep id f).getStep id = f (st.getStep id) := by
  unfold ExecState.getStep
  rw [setStep_handles_get, if_pos rfl]
  cases hh : alistGet st.handles id with
  | none => simp [hh] at h
  | some hd => simp [hh]

/-- `setStep` preserves handle existence. -/
theorem setStep_handle_isSome (st : ExecState) (id k : String)
    (f : StepStateR → StepStateR) (h : (alistGet st.handles k).isSome) :
    (alistGet (st.setStep id f).handles k).isSome := by
  rw [setStep_handles_get]
  split
  · cases hh : alistGet st.handles k with
    | none => simp [hh] at h
    | some hd => simp [hh]
  · exact h

/-- The handle map after a successful `updateData`: same data, detached. -/
theorem updateData_handles_get (st : ExecState)
    (h : truthy (jsGet st.mem.source "__openqueue") = false) (k : String) :
    alistGet (st.updateData).1.handles k =
      (alistGet st.handles k).map
        (fun q => (⟨q.sdata, false⟩ : StepHandle)) := by
  rw [updateData_ok _ h]
  exact alistGet_map_key
    (fun p : String × StepHandle => (p.1, (⟨p.2.sdata, false⟩ : StepHandle)))
    (fun q : StepHandle => (⟨q.sdata, false⟩ : StepHandle)) (fun p => rfl) _ _
    (fun p _ => rfl)

/-- Reading a handle after a successful `updateData` (the deep copy keeps
the handle data, only the aliasing flag drops). -/
theorem getStep_updateData (st : ExecState)
    (h : truthy (jsGet st.mem.source "__openqueue") = false) (k : String) :
    (st.updateData).1.getStep k = st.getStep k := by
  unfold ExecState.getStep
  rw [updateData_handles_get _ h]
  cases hh : alistGet st.handles k <;> simp [hh]

/-- Detaching all handles keeps their data. -/
theorem alistGet_detach (l : List (String × StepHandle)) (k : String) :
    alistGet (l.map (fun p => (p.1, (⟨p.2.sdata, false⟩ : StepHandle)))) k =
      (alistGet l k).map (fun q => (⟨q.sdata, false⟩ : StepHandle)) :=
  alistGet_map_key
    (fun p : String × StepHandle => (p.1, (⟨p.2.sdata, false⟩ : StepHandle)))
    (fun q : StepHandle => (⟨q.sdata, false⟩ : StepHandle)) (fun p => rfl) _ _
    (fun p _ => rfl)

/-- Reading a handle on the literal record produced by a successful
`updateData` (same handle data, detached). -/
theorem getStep_persistRec (X : ExecState) (k : String) :
    ExecState.getStep
      { mem := X.mem
        handles := X.handles.map (fun p => (p.1, ⟨p.2.sdata, false⟩))
        persisted := X.mem
        priorityVal := X.priorityVal
        delayedUntil := X.delayedUntil
        extWrites := X.extWrites } k = X.getStep k := by
  unfold ExecState.getStep
  dsimp only
  rw [alistGet_map_key
    (fun p : String × StepHandle => (p.1, (⟨p.2.sdata, false⟩ : StepHandle)))
    (fun q : StepHandle => (⟨q.sdata, false⟩ : StepHandle)) (fun p => rfl) _ _
    (fun p _ => rfl)]
  cases hh : alistGet X.handles k <;> simp [hh]

/-- `updateData` preserves handle existence. -/
theorem updateData_handle_isSome (st : ExecState)
    (h : truthy (jsGet st.mem.source "__openqueue") = false) (k : String)
    (hs : (alistGet st.handles k).isSome) :
    (alistGet (st.updateData).1.handles k).isSome := by
  rw [updateData_handles_get _ h]
  cases hh : alistGet st.handles k with
  | none => simp [hh] at hs
  | some hd => simp [hh]

theorem alistGet_alistSet_self {α : Type} (l : List (String × α)) (k : String)
    (v : α) (h : (alistGet l k).isSome) :
    alistGet (alistSet l k v) k = some v := by
  induction l with
  | nil => simp [alistGet] at h
  | cons p rest ih =>
      rcases p with ⟨pk, pv⟩
      by_cases hp : pk = k
      · simp [alistSet, alistGet, hp]
      · simp only [alistSet, alistGet, if_neg hp] at h ⊢
        exact ih h

theorem alistGet_alistSet_other {α : Type} (l : List (String × α))
    (k k' : String) (v : α) (h : ¬ k' = k) :
    alistGet (alistSet l k v) k' = alistGet l k' := by
  have hk : ¬ k = k' := fun hc => h hc.symm
  induction l with
  | nil => rfl
  | cons p rest ih =>
      rcases p with ⟨pk, pv⟩
      simp only [alistSet]
      by_cases hp : pk = k
      · rw [if_pos hp]
        simp only [alistGet]
        have hpk' : ¬ pk = k' := fun hc => hk (hp ▸ hc)
        rw [if_neg hpk', if_neg hpk']
      · rw [if_neg hp]
        simp only [alistGet]
        by_cases hp' : pk = k'
        · rw [if_pos hp', if_pos hp']
        · rw [if_neg hp', if_neg hp', ih]

/-- Setting a property and reading it back. -/
theorem jsGet_jsSet_self (fs : List (String × JSVal)) (k : String) (x : JSVal) :
    jsGet (jsSet (.obj fs) k x) k = x := by
  unfold jsSet
  dsimp only
  cases hk : alistGet fs k with
  | some v =>
      dsimp only
      unfold jsGet
      dsimp only
      rw [alistGet_alistSet_self fs k x (by simp [hk])]
      rfl
  | none =>
      dsimp only
      unfold jsGet
      dsimp only
      rw [alistGet_append]
      simp [hk, alistGet]

/-- Setting one property leaves the others unchanged. -/
theorem jsGet_jsSet_other (v : JSVal) (k k' : String) (x : JSVal)
    (h : ¬ k' = k) : jsGet (jsSet v k x) k' = jsGet v k' := by
  cases v with
  | obj fs =>
      unfold jsSet
      dsimp only
      cases hk : alistGet fs k with
      | some w =>
          dsimp only
          unfold jsGet
          dsimp only
          rw [alistGet_alistSet_other fs k k' x h]
      | none =>
          dsimp only
          unfold jsGet
          dsimp only
          rw [alistGet_append]
          cases hg : alistGet fs k' with
          | some w => simp [hg]
          | none =>
              have hkk : ¬ k = k' := fun hc => h hc.symm
              simp [hg, alistGet, hkk]
  | null => rfl
  | undefined => rfl
  | nan => rfl
  | bool b => rfl
  | num n => rfl
  | str s => rfl
  | arr elems => rfl
  | fn tag => rfl

/-- `jsSet` on an object yields an object. -/
theorem jsSet_obj (fs : List (String × JSVal)) (k : String) (x : JSVal) :
    ∃ fs', jsSet (.obj fs) k x = .obj fs' := by
  unfold jsSet
  dsimp only
  cases alistGet fs k <;> exact ⟨_, rfl⟩

/-- The stored value recorded by `stepState.error` for any modelled Error
instance is the `toString` method reference. -/
theorem optionalToStringMethod_thrownJS (e : Thrown) :
    optionalToStringMethod (thrownJS e) = .fn "toString" := by
  cases e <;> rfl

/-- `repCatch` never invokes the user function. -/
theorem repCatch_fnCalls (now : Int) (id : String) (e : Thrown) (c : Nat)
    (st : ExecState) : (repCatch now id e c st).fnCalls = c := by
  cases e <;> dsimp only [repCatch] <;> try rfl
  all_goals (split <;> rfl)

/-- The recursion tail preserves the invocation count. -/
theorem repTail_fnCalls (now : Int) (id : String) (r : PrimOut) :
    (repTail now id r).fnCalls = r.fnCalls := by
  unfold repTail
  split
  · rfl
  · rw [repCatch_fnCalls]

/-! ## Concrete fixtures -/

/-- A typical validated user payload (no `__openqueue` key). -/
def srcSample : JSVal := .obj [("name", .str "Martin")]

/-- A prepared in-memory `JobState` over `srcSample` with the given steps. -/
def baseJob (steps : List (String × StepStateR)) : JobState :=
  { openqueue := true
    source := srcSample
    invocations := []
    metrics := {}
    errors := []
    steps := steps
    logs := [] }

/-- A dispatch state freshly loaded from a persisted `baseJob steps`. -/
def baseState (steps : List (String × StepStateR)) : ExecState :=
  { mem := baseJob steps, handles := [], persisted := baseJob steps }

/-- Between dispatches the executor's `finally` runs `finish()` and
`updateData()`, and the queue later re-delivers the job, whose state manager
re-loads the persisted record (`prepareData` returns it unchanged — cf.
`safeParse_toJSVal`) with a fresh handle cache. -/
def redeliver (st : ExecState) : ExecState :=
  { mem := ((st.finish.updateData).1).persisted
    handles := []
    persisted := ((st.finish.updateData).1).persisted }

/-- A sleep step completed in an earlier dispatch. -/
def sleepDone : StepStateR :=
  { type := .sleep
    status := .completed
    result := .bool true
    error := .null
    metrics := { startedAt := some 1, completedAt := some 2, duration := some 1 } }

/-! ## C1 -/

/-- **C1** (code bug).  The claim asserts the universal completed-step
precondition for all five primitives.  `executeRun`, `executeRepeat` and
`executeInvoke` do start with a `status === "completed"` short-circuit, but
`executeSleep` (and hence `executeSleepUntil`) branches only on
`status === "delayed"`: a sleep step that completed in an earlier dispatch
and is re-entered (because a later step suspended the job) takes the
first-call branch — the step is re-marked `delayed`, the job is moved to the
delayed set again and Suspend is raised — instead of returning
`{success: true, ran: false, result: true}` without suspending. -/
theorem C1_sleep_completed_reentry_suspends :
    (executeSleep {} 5 "s" 100 .sleep (baseState [("s", sleepDone)])).out =
      .error .delayedErr ∧
    (executeSleep {} 5 "s" 100 .sleep (baseState [("s", sleepDone)])).st.delayedUntil =
      some 105 ∧
    ((executeSleep {} 5 "s" 100 .sleep (baseState [("s", sleepDone)])).st.getStep "s").status =
      .delayed := by
  refine ⟨rfl, rfl, rfl⟩

/-! ## C2 -/

/-- **C2** (confirmed).  In the second (complete) variant of
`ActiveJobExecutor.execute`, when the user workflow function raises the
Suspend sentinel (`DelayedError`) or the Unrecoverable sentinel
(`UnrecoverableError`), `execute` rethrows that same sentinel unchanged to
its caller, after the `finally` block (`wrapUp`, `finish`, `updateData`) has
persisted the `JobState` (the persisted blob equals the in-memory blob).
(The first variant instead swallows the sentinels and returns `undefined`;
the spec designates that variant a bug and follows the rethrow variant.) -/
theorem C2_execute_rethrows_sentinels (now : Int) (st : ExecState)
    (fnPre : ExecState → ExecState) (notify : ExecState → ExecState)
    (ctxLogs : List JobLogR) (e : Thrown)
    (hsent : e = .delayedErr ∨ ∃ m, e = .unrecoverableErr m)
    (hnest : truthy (jsGet (fnPre (ExecState.jobStart now st)).mem.source
      "__openqueue") = false) :
    (ActiveJobExecutor.executeV2 now (fun s => (fnPre s, .error e)) notify
      ctxLogs st).2 = .error e ∧
    (ActiveJobExecutor.executeV2 now (fun s => (fnPre s, .error e)) notify
      ctxLogs st).1.persisted =
    (ActiveJobExecutor.executeV2 now (fun s => (fnPre s, .error e)) notify
      ctxLogs st).1.mem := by
  have h2 : truthy (jsGet ((fnPre (ExecState.jobStart now st)).wrapUp
      ctxLogs).finish.mem.source "__openqueue") = false := by
    simpa using hnest
  unfold ActiveJobExecutor.executeV2
  dsimp only
  rw [updateData_ok _ h2]
  exact ⟨rfl, rfl⟩

/-- Witness for C2 at a concrete input: a user function that immediately
raises the Suspend sentinel on a freshly prepared job. -/
theorem C2_execute_rethrows_sentinels_witness :
    (ActiveJobExecutor.executeV2 3 (fun s => (s, .error .delayedErr)) id []
      (baseState [])).2 = .error .delayedErr ∧
    (ActiveJobExecutor.executeV2 3 (fun s => (s, .error .delayedErr)) id []
      (baseState [])).1.persisted =
    (ActiveJobExecutor.executeV2 3 (fun s => (s, .error .delayedErr)) id []
      (baseState [])).1.mem :=
  C2_execute_rethrows_sentinels 3 (baseState []) id id [] .delayedErr
    (Or.inl rfl) rfl

/-! ## C3 -/

/-- **C3 counterexample.**  On the first dispatch of a job, the very first
`ctx.run` step creates a fresh handle that is *not* linked into
`this.data.__steps` (only `finish()` in the executor's `finally` folds the
handle cache back into the blob).  So when `executeRun` returns control
after completing the step, the persisted `JobState` does not contain the
touched step's `StepState` at all, contradicting the claim that the
persisted state includes the StepState of every step handle touched so far
in this dispatch. -/
theorem C3_fresh_step_not_in_persisted_steps :
    ((executeRun 5 "a" (.ok (.num 42)) (baseState [])).st.getStep "a").status =
      .completed ∧
    ((executeRun 5 "a" (.ok (.num 42)) (baseState [])).st.getStep "a").result =
      .num 42 ∧
    (executeRun 5 "a" (.ok (.num 42)) (baseState [])).out =
      .ok ⟨true, true, .num 42⟩ ∧
    alistGet (executeRun 5 "a" (.ok (.num 42)) (baseState [])).st.persisted.steps
      "a" = none := by
  exact ⟨rfl, rfl, rfl, rfl⟩

/-- `executeRun` preserves persisted-blob = in-memory-blob, on every
outcome (the thrown ones included). -/
theorem executeRun_sync (now : Int) (id : String) (fnBeh : Except Thrown JSVal)
    (st : ExecState)
    (hnest : truthy (jsGet st.mem.source "__openqueue") = false)
    (hsync : st.persisted = st.mem) :
    (executeRun now id fnBeh st).st.persisted =
      (executeRun now id fnBeh st).st.mem := by
  unfold executeRun
  dsimp only
  split
  · simp [hsync]
  · have h1 : ∀ f : StepStateR → StepStateR,
        truthy (jsGet ((st.forStep id .run).setStep id f).mem.source
          "__openqueue") = false := by
      intro f
      simpa using hnest
    cases fnBeh with
    | ok v =>
        dsimp only
        rw [updateData_ok _ (h1 _)]
    | error e =>
        dsimp only
        unfold runCatch
        dsimp only
        rw [updateData_ok _ (h1 _)]

/-- `executeSleep` preserves persisted-blob = in-memory-blob, in both
branches (the Suspend path included) and for either step type. -/
theorem executeSleep_sync (wf : WorkflowCfg) (now dur : Int) (id : String)
    (ty : StepTypeT) (st : ExecState)
    (hnest : truthy (jsGet st.mem.source "__openqueue") = false)
    (hsync : st.persisted = st.mem) :
    (executeSleep wf now id dur ty st).st.persisted =
      (executeSleep wf now id dur ty st).st.mem := by
  unfold executeSleep
  dsimp only
  have h1 : ∀ f : StepStateR → StepStateR,
      truthy (jsGet ((st.forStep id ty).setStep id f).mem.source
        "__openqueue") = false := by
    intro f
    simpa using hnest
  split
  · rw [updateData_ok _ (h1 _)]
  · rw [updateData_ok _ (h1 _)]

/-- `executeSleepUntil` preserves persisted-blob = in-memory-blob. -/
theorem executeSleepUntil_sync (wf : WorkflowCfg) (now ts : Int) (id : String)
    (st : ExecState)
    (hnest : truthy (jsGet st.mem.source "__openqueue") = false)
    (hsync : st.persisted = st.mem) :
    (executeSleepUntil wf now id ts st).st.persisted =
      (executeSleepUntil wf now id ts st).st.mem := by
  unfold executeSleepUntil
  exact executeSleep_sync wf now (ts - now) id .sleepUntil
    (st.forStep id .sleepUntil) (by simpa using hnest) (by simp [hsync])

/-! ## C4 -/

/-- **C4** (confirmed).  `executeSleep`: if the step's status is `"delayed"`
(resumption), the step is completed with result `true`, the state persisted
and `{success: true, ran: true, result: true}` returned; otherwise the step
is started and marked `delayed`, the state persisted, the job's priority
changed to the configured delayed-default priority
(`priority?.delayDefaultValue ?? 1`), the job moved to the delayed set for
`durationMs` (`moveToDelayed(Date.now() + durationMs)`), and the Suspend
sentinel (`DelayedError`) raised, so that branch never returns normally. -/
theorem C4_sleep_protocol (wf : WorkflowCfg) (now dur : Int) (id : String)
    (st : ExecState)
    (hnest : truthy (jsGet st.mem.source "__openqueue") = false) :
    (((st.forStep id .sleep).getStep id).status = .delayed →
      (executeSleep wf now id dur .sleep st).out = .ok ⟨true, true, .bool true⟩ ∧
      ((executeSleep wf now id dur .sleep st).st.getStep id).status = .completed ∧
      ((executeSleep wf now id dur .sleep st).st.getStep id).result = .bool true ∧
      (executeSleep wf now id dur .sleep st).st.persisted =
        (executeSleep wf now id dur .sleep st).st.mem) ∧
    (((st.forStep id .sleep).getStep id).status ≠ .delayed →
      (executeSleep wf now id dur .sleep st).out = .error .delayedErr ∧
      ((executeSleep wf now id dur .sleep st).st.getStep id).status = .delayed ∧
      (executeSleep wf now id dur .sleep st).st.priorityVal =
        some (wf.delayPriorityDefault.getD 1) ∧
      (executeSleep wf now id dur .sleep st).st.delayedUntil = some (now + dur) ∧
      (executeSleep wf now id dur .sleep st).st.persisted =
        (executeSleep wf now id dur .sleep st).st.mem) := by
  have hset : ∀ f : StepStateR → StepStateR,
      truthy (jsGet ((st.forStep id .sleep).setStep id f).mem.source
        "__openqueue") = false := by
    intro f
    simpa using hnest
  have hhandle := forStep_handle_isSome st id .sleep
  rcases hh : alistGet (st.forStep id .sleep).handles id with _ | hd
  · rw [hh] at hhandle
    simp at hhandle
  constructor
  · intro hdl
    unfold executeSleep
    dsimp only
    rw [if_pos hdl, updateData_ok _ (hset _)]
    dsimp only
    refine ⟨rfl, ?_, ?_, rfl⟩
    · simp only [ExecState.getStep]
      rw [alistGet_detach, setStep_handles_get, if_pos rfl, hh]
      rfl
    · simp only [ExecState.getStep]
      rw [alistGet_detach, setStep_handles_get, if_pos rfl, hh]
      rfl
  · intro hdl
    unfold executeSleep
    dsimp only
    rw [if_neg hdl, updateData_ok _ (hset _)]
    dsimp only
    refine ⟨rfl, ?_, rfl, rfl, rfl⟩
    simp only [ExecState.getStep]
    rw [alistGet_detach, setStep_handles_get, if_pos rfl, hh]
    rfl

/-- Witness for C4 at concrete inputs: the resumption branch on a job whose
sleep step is `delayed`, and the first-call branch on a fresh job. -/
theorem C4_sleep_protocol_witness :
    ((((baseState [("s", { sleepDone with status := .delayed })]).forStep "s"
        .sleep).getStep "s").status = .delayed ∧
      (executeSleep {} 9 "s" 50 .sleep
        (baseState [("s", { sleepDone with status := .delayed })])).out =
        .ok ⟨true, true, .bool true⟩) ∧
    ((((baseState []).forStep "s" .sleep).getStep "s").status ≠ .delayed ∧
      (executeSleep {} 9 "s" 50 .sleep (baseState [])).out =
        .error .delayedErr ∧
      (executeSleep {} 9 "s" 50 .sleep (baseState [])).st.delayedUntil =
        some 59) := by
  refine ⟨⟨rfl, ?_⟩, ⟨?_, ?_, ?_⟩⟩
  · exact ((C4_sleep_protocol {} 9 50 "s"
      (baseState [("s", { sleepDone with status := .delayed })]) rfl).1 rfl).1
  · intro h
    exact absurd h (by decide)
  · exact ((C4_sleep_protocol {} 9 50 "s" (baseState []) rfl).2
      (by intro h; exact absurd h (by decide))).1
  · exact ((C4_sleep_protocol {} 9 50 "s" (baseState []) rfl).2
      (by intro h; exact absurd h (by decide))).2.2.2.1

/-! ## C7 -/

/-- **C7 counterexample.**  `executeRun`'s `catch` has no sentinel check:
when the user `run` function throws the Suspend sentinel (`DelayedError`),
the catch records `stepState.error(e)` — marking the step `failed` and
stamping `failedAt` — persists, and only then rethrows.  The claim's final
part ("the reserved sentinels ... propagate without marking the step
failed") is therefore false. -/
theorem C7_sentinel_marks_step_failed :
    (executeRun 5 "a" (.error .delayedErr) (baseState [])).out =
      .error .delayedErr ∧
    ((executeRun 5 "a" (.error .delayedErr) (baseState [])).st.getStep "a").status =
      .failed ∧
    ((executeRun 5 "a" (.error .delayedErr) (baseState [])).st.getStep "a").metrics.failedAt =
      some 5 := by
  exact ⟨rfl, rfl, rfl⟩

/-- **C7** (corrected).  What `executeRun` actually does on a
not-yet-completed step: on success it completes the step with the result,
persists and returns `{success: true, ran: true, result}`; on *any* thrown
error — the reserved sentinels included — it records `error(e)` on the step
(status `failed`, the stored error being the `toString` method reference,
cf. C9), persists, and rethrows the same error object (`DelayedError` and
`UnrecoverableError` are `Error` instances, so the `instanceof` conversion
is the identity).  The sentinels are *not* excepted from error recording;
they are only rethrown unchanged. -/
theorem C7_run_error_handling (now : Int) (id : String) (v : JSVal)
    (e : Thrown) (st : ExecState)
    (hnest : truthy (jsGet st.mem.source "__openqueue") = false)
    (hnc : ((st.forStep id .run).getStep id).status ≠ .completed) :
    ((executeRun now id (.ok v) st).out = .ok ⟨true, true, v⟩ ∧
     ((executeRun now id (.ok v) st).st.getStep id).status = .completed ∧
     ((executeRun now id (.ok v) st).st.getStep id).result = v ∧
     (executeRun now id (.ok v) st).st.persisted =
       (executeRun now id (.ok v) st).st.mem) ∧
    ((executeRun now id (.error e) st).out = .error e ∧
     ((executeRun now id (.error e) st).st.getStep id).status = .failed ∧
     ((executeRun now id (.error e) st).st.getStep id).error = .fn "toString" ∧
     (executeRun now id (.error e) st).st.persisted =
       (executeRun now id (.error e) st).st.mem) := by
  have hset : ∀ f : StepStateR → StepStateR,
      truthy (jsGet ((st.forStep id .run).setStep id f).mem.source
        "__openqueue") = false := by
    intro f
    simpa using hnest
  have hhandle := forStep_handle_isSome st id .run
  rcases hh : alistGet (st.forStep id .run).handles id with _ | hd
  · rw [hh] at hhandle
    simp at hhandle
  constructor
  · unfold executeRun
    dsimp only
    rw [if_neg hnc]
    rw [updateData_ok _ (hset _)]
    dsimp only
    refine ⟨rfl, ?_, ?_, rfl⟩
    · simp only [ExecState.getStep]
      rw [alistGet_detach, setStep_handles_get, if_pos rfl, hh]
      rfl
    · simp only [ExecState.getStep]
      rw [alistGet_detach, setStep_handles_get, if_pos rfl, hh]
      rfl
  · unfold executeRun
    dsimp only
    rw [if_neg hnc]
    unfold runCatch
    dsimp only
    rw [updateData_ok _ (hset _)]
    dsimp only
    refine ⟨rfl, ?_, ?_, rfl⟩
    · simp only [ExecState.getStep]
      rw [alistGet_detach, setStep_handles_get, if_pos rfl, hh]
      rfl
    · simp only [ExecState.getStep]
      rw [alistGet_detach, setStep_handles_get, if_pos rfl, hh]
      simp [StepStateManager.error, optionalToStringMethod_thrownJS]

/-- Witness for C7: a fresh run step succeeding with `2`, and the same step
observing a thrown ordinary error. -/
theorem C7_run_error_handling_witness :
    ((executeRun 4 "a" (.ok (.num 2)) (baseState [])).out =
        .ok ⟨true, true, .num 2⟩ ∧
      ((executeRun 4 "a" (.ok (.num 2)) (baseState [])).st.getStep "a").status =
        .completed ∧
      ((executeRun 4 "a" (.ok (.num 2)) (baseState [])).st.getStep "a").result =
        .num 2 ∧
      (executeRun 4 "a" (.ok (.num 2)) (baseState [])).st.persisted =
        (executeRun 4 "a" (.ok (.num 2)) (baseState [])).st.mem) ∧
    ((executeRun 4 "a" (.error (.errObj "boom")) (baseState [])).out =
        .error (.errObj "boom") ∧
      ((executeRun 4 "a" (.error (.errObj "boom")) (baseState [])).st.getStep
          "a").status = .failed ∧
      ((executeRun 4 "a" (.error (.errObj "boom")) (baseState [])).st.getStep
          "a").error = .fn "toString" ∧
      (executeRun 4 "a" (.error (.errObj "boom")) (baseState [])).st.persisted =
        (executeRun 4 "a" (.error (.errObj "boom")) (baseState [])).st.mem) :=
  C7_run_error_handling 4 "a" (.num 2) (.errObj "boom") (baseState []) rfl
    (by intro h; exact absurd h (by decide))

/-! ## C5 machinery: bounding the number of user-function invocations -/

/-- Well-formedness of a repeat step's stored protocol record: either the
stored `result` is falsy (so the initialisation branch will install
`{attempt: 0, ...}`), or it is an object whose `attempt` field coerces to
the number `a` — the only shapes this code ever writes. -/
def repWF (s : StepStateR) (a : Int) : Prop :=
  (truthy s.result = false ∧ a = 0) ∨
  (∃ fs, s.result = .obj fs ∧ toNum? (jsGet s.result "attempt") = some a)

/-- Claim bound, `executeRepeatGo` side. -/
def RepGoBound (now : Int) (id : String) (limit : Int) (every : Option Int)
    (fn : Nat → Except Thrown JSVal) (fuel : Nat) : Prop :=
  ∀ (st : ExecState) (calls : Nat) (a : Int),
    truthy (jsGet st.mem.source "__openqueue") = false →
    repWF ((st.forStep id .repeatT).getStep id) a →
    (executeRepeatGo now id limit every fn calls fuel st).fnCalls ≤
      calls + (limit - a).toNat

/-- Claim bound, `repAttemptPhase` side (entered with an existing handle
holding a numeric `attempt`). -/
def RepPhaseBound (now : Int) (id : String) (limit : Int) (every : Option Int)
    (fn : Nat → Except Thrown JSVal) (fuel : Nat) : Prop :=
  ∀ (st : ExecState) (calls : Nat) (a : Int),
    truthy (jsGet st.mem.source "__openqueue") = false →
    (alistGet st.handles id).isSome →
    (∃ fs, (st.getStep id).result = .obj fs) →
    toNum? (jsGet (st.getStep id).result "attempt") = some a →
    (repAttemptPhase now id limit every fn
      (fun c s => executeRepeatGo now id limit every fn c fuel s)
      calls st).fnCalls ≤ calls + (limit - a).toNat

/-- The bound carried through the recursive self-invocation: the state
entering the recursion is the persisted record over the mutated state
`st3`, whose handle for `id` holds an object result with numeric
`attempt = a`. -/
theorem repGo_bound_after_persist (now : Int) (id : String) (limit : Int)
    (every : Option Int) (fn : Nat → Except Thrown JSVal) (fuel : Nat)
    (hP : RepGoBound now id limit every fn fuel) (st3 : ExecState)
    (calls : Nat) (a : Int)
    (hnest3 : truthy (jsGet st3.mem.source "__openqueue") = false)
    (hh3 : (alistGet st3.handles id).isSome)
    (hobj3 : ∃ fs, (st3.getStep id).result = .obj fs)
    (hatt3 : toNum? (jsGet (st3.getStep id).result "attempt") = some a) :
    (executeRepeatGo now id limit every fn calls fuel
      { mem := st3.mem
        handles := st3.handles.map (fun p => (p.1, (⟨p.2.sdata, false⟩ : StepHandle)))
        persisted := st3.mem
        priorityVal := st3.priorityVal
        delayedUntil := st3.delayedUntil
        extWrites := st3.extWrites }).fnCalls ≤ calls + (limit - a).toNat := by
  have hhS : (alistGet
      (st3.handles.map (fun p => (p.1, (⟨p.2.sdata, false⟩ : StepHandle)))) id).isSome := by
    rw [alistGet_detach]
    cases hx : alistGet st3.handles id with
    | none => rw [hx] at hh3; simp at hh3
    | some y => simp [hx]
  have hforStep : (ExecState.forStep
      { mem := st3.mem
        handles := st3.handles.map (fun p => (p.1, (⟨p.2.sdata, false⟩ : StepHandle)))
        persisted := st3.mem
        priorityVal := st3.priorityVal
        delayedUntil := st3.delayedUntil
        extWrites := st3.extWrites } id .repeatT) =
      { mem := st3.mem
        handles := st3.handles.map (fun p => (p.1, (⟨p.2.sdata, false⟩ : StepHandle)))
        persisted := st3.mem
        priorityVal := st3.priorityVal
        delayedUntil := st3.delayedUntil
        extWrites := st3.extWrites } := by
    unfold ExecState.forStep
    cases hx : alistGet
        (st3.handles.map (fun p => (p.1, (⟨p.2.sdata, false⟩ : StepHandle)))) id with
    | none => rw [hx] at hhS; simp at hhS
    | some y => rfl
  apply hP
  · simpa using hnest3
  · rw [hforStep, getStep_persistRec st3 id]
    rcases hobj3 with ⟨fs, hfs⟩
    exact Or.inr ⟨fs, hfs, hatt3⟩

theorem repPhase_bound (now : Int) (id : String) (limit : Int)
    (every : Option Int) (fn : Nat → Except Thrown JSVal) (fuel : Nat)
    (hP : RepGoBound now id limit every fn fuel) :
    RepPhaseBound now id limit every fn fuel := by
  intro st calls a hnest hhandle hobj hatt
  unfold repAttemptPhase
  by_cases hge : jsGe (jsGet (st.getStep id).result "attempt") limit
  · rw [if_pos hge]
    dsimp only
    split <;> (dsimp only; omega)
  · rw [if_neg hge]
    have halt : a < limit := by
      unfold jsGe at hge
      rw [hatt] at hge
      simpa using hge
    have htoNat : 1 ≤ (limit - a).toNat := by omega
    dsimp only
    cases hfn : fn calls with
    | error e =>
        rw [repCatch_fnCalls]
        omega
    | ok v =>
        dsimp only
        by_cases htr : truthy v
        · rw [if_pos htr]
          split
          · dsimp only
            omega
          · rw [repCatch_fnCalls]
            omega
        · rw [if_neg htr]
          by_cases hev : everyPos every = true ∧
              jsLt (jsGet ((st.setStep id
                (fun s =>
                  let r := jsSet s.result "attempt" (jsIncr (jsGet s.result "attempt"))
                  { s with result := jsSet r "lastResult" v })).getStep id).result
                "attempt") limit = true
          · rw [if_pos hev]
            split
            · dsimp only
              omega
            · rw [repCatch_fnCalls]
              omega
          · rw [if_neg hev]
            have hg3 : truthy (jsGet (((st.setStep id
                (fun s =>
                  let r := jsSet s.result "attempt" (jsIncr (jsGet s.result "attempt"))
                  { s with result := jsSet r "lastResult" v })).setStep id
                (fun s => { s with status := .active })).mem.source)
                "__openqueue") = false := by
              simpa using hnest
            rw [updateData_ok _ hg3]
            dsimp only
            -- facts about the state entering the recursion
            rcases hobj with ⟨fs, hfs⟩
            have hincr : jsIncr (jsGet (st.getStep id).result "attempt") =
                .num (a + 1) := by
              unfold jsIncr
              rw [hatt]
            have hh1 : (alistGet (st.setStep id
                (fun s =>
                  let r := jsSet s.result "attempt" (jsIncr (jsGet s.result "attempt"))
                  { s with result := jsSet r "lastResult" v })).handles id).isSome :=
              setStep_handle_isSome _ _ _ _ hhandle
            have hh3 : (alistGet ((st.setStep id
                (fun s =>
                  let r := jsSet s.result "attempt" (jsIncr (jsGet s.result "attempt"))
                  { s with result := jsSet r "lastResult" v })).setStep id
                (fun s => { s with status := .active })).handles id).isSome :=
              setStep_handle_isSome _ _ _ _ hh1
            have hgs3 : ((st.setStep id
                (fun s =>
                  let r := jsSet s.result "attempt" (jsIncr (jsGet s.result "attempt"))
                  { s with result := jsSet r "lastResult" v })).setStep id
                (fun s => { s with status := .active })).getStep id =
                { st.getStep id with
                  result := jsSet (jsSet (st.getStep id).result "attempt"
                    (.num (a + 1))) "lastResult" v
                  status := .active } := by
              rw [getStep_setStep _ _ _ hh1, getStep_setStep _ _ _ hhandle, hincr]
            have hresObj : ∃ fs₂,
                jsSet (jsSet (st.getStep id).result "attempt" (.num (a + 1)))
                  "lastResult" v = .obj fs₂ := by
              rw [hfs]
              rcases jsSet_obj fs "attempt" (.num (a + 1)) with ⟨fs₁, e₁⟩
              rw [e₁]
              exact jsSet_obj fs₁ "lastResult" v
            have hresAtt : toNum? (jsGet
                (jsSet (jsSet (st.getStep id).result "attempt" (.num (a + 1)))
                  "lastResult" v) "attempt") = some (a + 1) := by
              rw [jsGet_jsSet_other _ _ _ _ (by decide), hfs, jsGet_jsSet_self]
              rfl
            have hrec := repGo_bound_after_persist now id limit every fn fuel hP
              ((st.setStep id
                (fun s =>
                  let r := jsSet s.result "attempt" (jsIncr (jsGet s.result "attempt"))
                  { s with result := jsSet r "lastResult" v })).setStep id
                (fun s => { s with status := .active })) (calls + 1) (a + 1)
              (by simpa using hnest) hh3
              (by rw [hgs3]; exact hresObj) (by rw [hgs3]; exact hresAtt)
            rw [repTail_fnCalls]
            exact le_trans hrec (by omega)

theorem detach_handle_isSome (l : List (String × StepHandle)) (k : String)
    (h : (alistGet l k).isSome) :
    (alistGet (l.map (fun p => (p.1, (⟨p.2.sdata, false⟩ : StepHandle)))) k).isSome := by
  rw [alistGet_detach]
  cases hx : alistGet l k with
  | none => rw [hx] at h; simp at h
  | some y => simp [hx]

theorem repGo_bound_step (now : Int) (id : String) (limit : Int)
    (every : Option Int) (fn : Nat → Except Thrown JSVal) (fuel : Nat)
    (hQ : RepPhaseBound now id limit every fn fuel) :
    RepGoBound now id limit every fn (fuel + 1) := by
  intro st calls a hnest hwf
  have hhandle0 := forStep_handle_isSome st id .repeatT
  unfold executeRepeatGo
  dsimp only
  by_cases hc : ((st.forStep id .repeatT).getStep id).status = .completed
  · rw [if_pos hc]
    dsimp only
    omega
  · rw [if_neg hc]
    by_cases hi : truthy ((st.forStep id .repeatT).getStep id).result
    · rw [if_pos hi]
      dsimp only
      rcases hwf with ⟨hfalse, _⟩ | ⟨fs, hobj, hatt⟩
      · rw [hi] at hfalse
        exact absurd hfalse (by simp)
      · by_cases hdel : ((st.forStep id .repeatT).getStep id).status = .delayed ∧
            truthy (jsGet ((st.forStep id .repeatT).getStep id).result
              "needsDelay") = true
        · rw [if_pos hdel]
          have hgD : truthy (jsGet ((st.forStep id .repeatT).setStep id
              (fun s => { s with status := .active
                                 result := jsSet s.result "needsDelay"
                                   (.bool false) })).mem.source "__openqueue") =
              false := by
            simpa using hnest
          rw [updateData_ok _ hgD]
          dsimp only
          have hhD : (alistGet ((st.forStep id .repeatT).setStep id
              (fun s => { s with status := .active
                                 result := jsSet s.result "needsDelay"
                                   (.bool false) })).handles id).isSome :=
            setStep_handle_isSome _ _ _ _ hhandle0
          have hgsD : ((st.forStep id .repeatT).setStep id
              (fun s => { s with status := .active
                                 result := jsSet s.result "needsDelay"
                                   (.bool false) })).getStep id =
              { (st.forStep id .repeatT).getStep id with
                status := .active
                result := jsSet ((st.forStep id .repeatT).getStep id).result
                  "needsDelay" (.bool false) } :=
            getStep_setStep _ _ _ hhandle0
          apply hQ
          · simpa using hnest
          · exact detach_handle_isSome _ _ hhD
          · rw [getStep_persistRec, hgsD]
            dsimp only
            rw [hobj]
            exact jsSet_obj fs "needsDelay" (.bool false)
          · rw [getStep_persistRec, hgsD]
            dsimp only
            rw [jsGet_jsSet_other _ _ _ _ (by decide)]
            exact hatt
        · rw [if_neg hdel]
          dsimp only
          exact hQ (st.forStep id .repeatT) calls a (by simpa using hnest)
            hhandle0 ⟨fs, hobj⟩ hatt
    · rw [if_neg hi]
      rcases hwf with ⟨_, ha0⟩ | ⟨fs, hobj, _⟩
      · subst ha0
        have hgI : truthy (jsGet ((st.forStep id .repeatT).setStep id
            (fun s => { StepStateManager.start now s with result := repInit })).mem.source
            "__openqueue") = false := by
          simpa using hnest
        rw [updateData_ok _ hgI]
        dsimp only
        have hhI : (alistGet ((st.forStep id .repeatT).setStep id
            (fun s => { StepStateManager.start now s with result := repInit })).handles
            id).isSome := setStep_handle_isSome _ _ _ _ hhandle0
        have hgsI : ((st.forStep id .repeatT).setStep id
            (fun s => { StepStateManager.start now s with result := repInit })).getStep
            id = { StepStateManager.start now
                    ((st.forStep id .repeatT).getStep id) with result := repInit } :=
          getStep_setStep _ _ _ hhandle0
        -- status after `start()` is "active", so the delay branch is skipped
        have hnd : ¬ ((ExecState.getStep
            { mem := ((st.forStep id .repeatT).setStep id
                (fun s => { StepStateManager.start now s with result := repInit })).mem
              handles := ((st.forStep id .repeatT).setStep id
                (fun s => { StepStateManager.start now s with result := repInit })).handles.map
                  (fun p => (p.1, (⟨p.2.sdata, false⟩ : StepHandle)))
              persisted := ((st.forStep id .repeatT).setStep id
                (fun s => { StepStateManager.start now s with result := repInit })).mem
              priorityVal := ((st.forStep id .repeatT).setStep id
                (fun s => { StepStateManager.start now s with result := repInit })).priorityVal
              delayedUntil := ((st.forStep id .repeatT).setStep id
                (fun s => { StepStateManager.start now s with result := repInit })).delayedUntil
              extWrites := ((st.forStep id .repeatT).setStep id
                (fun s => { StepStateManager.start now s with result := repInit })).extWrites }
            id).status = .delayed ∧
            truthy (jsGet (ExecState.getStep
              { mem := ((st.forStep id .repeatT).setStep id
                  (fun s => { StepStateManager.start now s with result := repInit })).mem
                handles := ((st.forStep id .repeatT).setStep id
                  (fun s => { StepStateManager.start now s with result := repInit })).handles.map
                    (fun p => (p.1, (⟨p.2.sdata, false⟩ : StepHandle)))
                persisted := ((st.forStep id .repeatT).setStep id
                  (fun s => { StepStateManager.start now s with result := repInit })).mem
                priorityVal := ((st.forStep id .repeatT).setStep id
                  (fun s => { StepStateManager.start now s with result := repInit })).priorityVal
                delayedUntil := ((st.forStep id .repeatT).setStep id
                  (fun s => { StepStateManager.start now s with result := repInit })).delayedUntil
                extWrites := ((st.forStep id .repeatT).setStep id
                  (fun s => { StepStateManager.start now s with result := repInit })).extWrites }
              id).result "needsDelay") = true) := by
          rw [getStep_persistRec, hgsI]
          intro hcon
          exact absurd hcon.1 (by simp [StepStateManager.start])
        rw [if_neg hnd]
        dsimp only
        apply hQ
        · simpa using hnest
        · exact detach_handle_isSome _ _ hhI
        · rw [getStep_persistRec, hgsI]
          exact ⟨_, rfl⟩
        · rw [getStep_persistRec, hgsI]
          rfl
      · rw [hobj] at hi
        exact absurd rfl hi

/-- The central counting bound: whatever happens, `executeRepeatGo` invokes
the user function at most `limit - attempt` more times. -/
theorem repGo_bound (now : Int) (id : String) (limit : Int)
    (every : Option Int) (fn : Nat → Except Thrown JSVal) :
    ∀ fuel, RepGoBound now id limit every fn fuel := by
  intro fuel
  induction fuel with
  | zero =>
      intro st calls a _ _
      unfold executeRepeatGo
      dsimp only
      omega
  | succ n ih =>
      exact repGo_bound_step now id limit every fn n
        (repPhase_bound now id limit every fn n ih)

/-- The exhaustion branch of the attempt phase: with a recorded numeric
`attempt ≥ limit`, the step is completed with `false`, persisted, and
`{success: true, ran: true, result: false}` returned, with no further user
invocation. -/
theorem repPhase_exhaust (now : Int) (id : String) (limit : Int)
    (every : Option Int) (fn : Nat → Except Thrown JSVal)
    (go : Nat → ExecState → PrimOut)
    (st : ExecState) (calls : Nat) (a : Int)
    (hnest : truthy (jsGet st.mem.source "__openqueue") = false)
    (hhandle : (alistGet st.handles id).isSome)
    (hatt : toNum? (jsGet (st.getStep id).result "attempt") = some a)
    (hge : limit ≤ a) :
    (repAttemptPhase now id limit every fn go calls st).out =
      .ok ⟨true, true, .bool false⟩ ∧
    ((repAttemptPhase now id limit every fn go calls st).st.getStep id).status =
      .completed ∧
    ((repAttemptPhase now id limit every fn go calls st).st.getStep id).result =
      .bool false ∧
    (repAttemptPhase now id limit every fn go calls st).st.persisted =
      (repAttemptPhase now id limit every fn go calls st).st.mem ∧
    (repAttemptPhase now id limit every fn go calls st).fnCalls = calls := by
  have hjsge : jsGe (jsGet (st.getStep id).result "attempt") limit = true := by
    unfold jsGe
    rw [hatt]
    simp [hge]
  have hset : truthy (jsGet (st.setStep id
      (StepStateManager.complete now (.bool false))).mem.source
      "__openqueue") = false := by
    simpa using hnest
  unfold repAttemptPhase
  rw [if_pos hjsge]
  dsimp only
  rw [updateData_ok _ hset]
  dsimp only
  refine ⟨rfl, ?_, ?_, rfl, rfl⟩
  · rw [getStep_persistRec, getStep_setStep _ _ _ hhandle]
    rfl
  · rw [getStep_persistRec, getStep_setStep _ _ _ hhandle]
    rfl

/-- Exhaustion at the `executeRepeat` entry point: same conclusion through
the completed-check, init and delay-resumption phases. -/
theorem repeat_exhaust (now : Int) (id : String) (limit : Int)
    (every : Option Int) (fn : Nat → Except Thrown JSVal) (st : ExecState)
    (a : Int)
    (hnest : truthy (jsGet st.mem.source "__openqueue") = false)
    (hnc : ((st.forStep id .repeatT).getStep id).status ≠ .completed)
    (hobj : ∃ fs, ((st.forStep id .repeatT).getStep id).result = .obj fs)
    (hatt : toNum? (jsGet ((st.forStep id .repeatT).getStep id).result
      "attempt") = some a)
    (hge : limit ≤ a) :
    (executeRepeat now id limit every fn st).out =
      .ok ⟨true, true, .bool false⟩ ∧
    ((executeRepeat now id limit every fn st).st.getStep id).status =
      .completed ∧
    ((executeRepeat now id limit every fn st).st.getStep id).result =
      .bool false ∧
    (executeRepeat now id limit every fn st).st.persisted =
      (executeRepeat now id limit every fn st).st.mem ∧
    (executeRepeat now id limit every fn st).fnCalls = 0 := by
  have hhandle0 := forStep_handle_isSome st id .repeatT
  have hi : truthy ((st.forStep id .repeatT).getStep id).result = true := by
    rcases hobj with ⟨fs, hfs⟩
    rw [hfs]
    rfl
  unfold executeRepeat executeRepeatGo
  dsimp only
  rw [if_neg hnc, if_pos hi]
  dsimp only
  by_cases hdel : ((st.forStep id .repeatT).getStep id).status = .delayed ∧
      truthy (jsGet ((st.forStep id .repeatT).getStep id).result
        "needsDelay") = true
  · rw [if_pos hdel]
    have hgD : truthy (jsGet ((st.forStep id .repeatT).setStep id
        (fun s => { s with status := .active
                           result := jsSet s.result "needsDelay"
                             (.bool false) })).mem.source "__openqueue") =
        false := by
      simpa using hnest
    rw [updateData_ok _ hgD]
    dsimp only
    have hhD : (alistGet ((st.forStep id .repeatT).setStep id
        (fun s => { s with status := .active
                           result := jsSet s.result "needsDelay"
                             (.bool false) })).handles id).isSome :=
      setStep_handle_isSome _ _ _ _ hhandle0
    apply repPhase_exhaust now id limit every fn _ _ 0 a
    · simpa using hnest
    · exact detach_handle_isSome _ _ hhD
    · rw [getStep_persistRec, getStep_setStep _ _ _ hhandle0]
      dsimp only
      rw [jsGet_jsSet_other _ _ _ _ (by decide)]
      exact hatt
    · exact hge
  · rw [if_neg hdel]
    dsimp only
    exact repPhase_exhaust now id limit every fn _ _ 0 a
      (by simpa using hnest) hhandle0 hatt hge


/-! ## C3 machinery: persistence synchronisation for repeat and invoke

`updateData` (on success) makes the persisted record equal to the in-memory
blob, and every other operation of the primitives touches neither blob's
`__source`; so `persisted = mem` on entry is re-established at every exit
point, the thrown ones included.  The repeat recursion additionally needs
that the in-memory `__source` is unchanged by a whole recursive call (the
enclosing level's `catch` persists once more afterwards). -/

/-- `executeRepeat`'s catch block preserves persisted-blob = in-memory-blob
and leaves the in-memory `__source` unchanged. -/
theorem repCatch_sync (now : Int) (id : String) (e : Thrown) (calls : Nat)
    (st : ExecState)
    (hnest : truthy (jsGet st.mem.source "__openqueue") = false)
    (hsync : st.persisted = st.mem) :
    (repCatch now id e calls st).st.persisted =
      (repCatch now id e calls st).st.mem ∧
    (repCatch now id e calls st).st.mem.source = st.mem.source := by
  cases e with
  | delayedErr => exact ⟨hsync, rfl⟩
  | unrecoverableErr m =>
      unfold repCatch
      dsimp only
      rw [updateData_ok _ (by simpa using hnest)]
      exact ⟨rfl, by simp⟩
  | errObj m =>
      unfold repCatch
      dsimp only
      rw [updateData_ok _ (by simpa using hnest)]
      exact ⟨rfl, by simp⟩

/-- The recursion tail preserves the two synchronisation invariants. -/
theorem repTail_sync (now : Int) (id : String) (r : PrimOut) (S : JSVal)
    (hnestS : truthy (jsGet S "__openqueue") = false)
    (h1 : r.st.persisted = r.st.mem) (h2 : r.st.mem.source = S) :
    (repTail now id r).st.persisted = (repTail now id r).st.mem ∧
    (repTail now id r).st.mem.source = S := by
  unfold repTail
  cases hout : r.out with
  | ok v =>
      dsimp only
      exact ⟨h1, h2⟩
  | error e =>
      dsimp only
      have hn : truthy (jsGet r.st.mem.source "__openqueue") = false := by
        rw [h2]
        exact hnestS
      have h3 := repCatch_sync now id e r.fnCalls r.st hn h1
      exact ⟨h3.1, h3.2.trans h2⟩

/-- `executeInvoke`'s catch block preserves persisted-blob = in-memory-blob. -/
theorem invCatch_sync (now : Int) (id : String) (e : Thrown) (st : ExecState)
    (hnest : truthy (jsGet st.mem.source "__openqueue") = false)
    (hsync : st.persisted = st.mem) :
    (invCatch now id e st).st.persisted = (invCatch now id e st).st.mem := by
  cases e with
  | delayedErr => exact hsync
  | unrecoverableErr m =>
      unfold invCatch
      dsimp only
      rw [updateData_ok _ (by simpa using hnest)]
  | errObj m =>
      unfold invCatch
      dsimp only
      rw [updateData_ok _ (by simpa using hnest)]

/-- Synchronisation invariant, `executeRepeatGo` side. -/
def RepGoSync (now : Int) (id : String) (limit : Int) (every : Option Int)
    (fn : Nat → Except Thrown JSVal) (fuel : Nat) : Prop :=
  ∀ (st : ExecState) (calls : Nat),
    truthy (jsGet st.mem.source "__openqueue") = false →
    st.persisted = st.mem →
    (executeRepeatGo now id limit every fn calls fuel st).st.persisted =
      (executeRepeatGo now id limit every fn calls fuel st).st.mem ∧
    (executeRepeatGo now id limit every fn calls fuel st).st.mem.source =
      st.mem.source

/-- Synchronisation invariant, `repAttemptPhase` side. -/
def RepPhaseSync (now : Int) (id : String) (limit : Int) (every : Option Int)
    (fn : Nat → Except Thrown JSVal) (fuel : Nat) : Prop :=
  ∀ (st : ExecState) (calls : Nat),
    truthy (jsGet st.mem.source "__openqueue") = false →
    st.persisted = st.mem →
    (repAttemptPhase now id limit every fn
      (fun c s => executeRepeatGo now id limit every fn c fuel s)
      calls st).st.persisted =
      (repAttemptPhase now id limit every fn
        (fun c s => executeRepeatGo now id limit every fn c fuel s)
        calls st).st.mem ∧
    (repAttemptPhase now id limit every fn
      (fun c s => executeRepeatGo now id limit every fn c fuel s)
      calls st).st.mem.source = st.mem.source

/-- The synchronisation invariant holds at the state entering the recursive
self-invocation (the persisted record over a mutated state `st3`). -/
theorem repGo_sync_after_persist (now : Int) (id : String) (limit : Int)
    (every : Option Int) (fn : Nat → Except Thrown JSVal) (fuel : Nat)
    (hP : RepGoSync now id limit every fn fuel) (st3 : ExecState)
    (calls : Nat)
    (hnest3 : truthy (jsGet st3.mem.source "__openqueue") = false) :
    (executeRepeatGo now id limit every fn calls fuel
      { mem := st3.mem
        handles := st3.handles.map (fun p => (p.1, (⟨p.2.sdata, false⟩ : StepHandle)))
        persisted := st3.mem
        priorityVal := st3.priorityVal
        delayedUntil := st3.delayedUntil
        extWrites := st3.extWrites }).st.persisted =
      (executeRepeatGo now id limit every fn calls fuel
        { mem := st3.mem
          handles := st3.handles.map (fun p => (p.1, (⟨p.2.sdata, false⟩ : StepHandle)))
          persisted := st3.mem
          priorityVal := st3.priorityVal
          delayedUntil := st3.delayedUntil
          extWrites := st3.extWrites }).st.mem ∧
    (executeRepeatGo now id limit every fn calls fuel
      { mem := st3.mem
        handles := st3.handles.map (fun p => (p.1, (⟨p.2.sdata, false⟩ : StepHandle)))
        persisted := st3.mem
        priorityVal := st3.priorityVal
        delayedUntil := st3.delayedUntil
        extWrites := st3.extWrites }).st.mem.source = st3.mem.source := by
  exact hP
    { mem := st3.mem
      handles := st3.handles.map (fun p => (p.1, (⟨p.2.sdata, false⟩ : StepHandle)))
      persisted := st3.mem
      priorityVal := st3.priorityVal
      delayedUntil := st3.delayedUntil
      extWrites := st3.extWrites } calls (by simpa using hnest3) rfl

/-- Same, `repAttemptPhase` side. -/
theorem repPhase_sync_after_persist (now : Int) (id : String) (limit : Int)
    (every : Option Int) (fn : Nat → Except Thrown JSVal) (fuel : Nat)
    (hQ : RepPhaseSync now id limit every fn fuel) (st3 : ExecState)
    (calls : Nat)
    (hnest3 : truthy (jsGet st3.mem.source "__openqueue") = false) :
    (repAttemptPhase now id limit every fn
      (fun c s => executeRepeatGo now id limit every fn c fuel s) calls
      { mem := st3.mem
        handles := st3.handles.map (fun p => (p.1, (⟨p.2.sdata, false⟩ : StepHandle)))
        persisted := st3.mem
        priorityVal := st3.priorityVal
        delayedUntil := st3.delayedUntil
        extWrites := st3.extWrites }).st.persisted =
      (repAttemptPhase now id limit every fn
        (fun c s => executeRepeatGo now id limit every fn c fuel s) calls
        { mem := st3.mem
          handles := st3.handles.map (fun p => (p.1, (⟨p.2.sdata, false⟩ : StepHandle)))
          persisted := st3.mem
          priorityVal := st3.priorityVal
          delayedUntil := st3.delayedUntil
          extWrites := st3.extWrites }).st.mem ∧
    (repAttemptPhase now id limit every fn
      (fun c s => executeRepeatGo now id limit every fn c fuel s) calls
      { mem := st3.mem
        handles := st3.handles.map (fun p => (p.1, (⟨p.2.sdata, false⟩ : StepHandle)))
        persisted := st3.mem
        priorityVal := st3.priorityVal
        delayedUntil := st3.delayedUntil
        extWrites := st3.extWrites }).st.mem.source = st3.mem.source := by
  exact hQ
    { mem := st3.mem
      handles := st3.handles.map (fun p => (p.1, (⟨p.2.sdata, false⟩ : StepHandle)))
      persisted := st3.mem
      priorityVal := st3.priorityVal
      delayedUntil := st3.delayedUntil
      extWrites := st3.extWrites } calls (by simpa using hnest3) rfl

theorem repPhase_sync (now : Int) (id : String) (limit : Int)
    (every : Option Int) (fn : Nat → Except Thrown JSVal) (fuel : Nat)
    (hP : RepGoSync now id limit every fn fuel) :
    RepPhaseSync now id limit every fn fuel := by
  intro st calls hnest hsync
  unfold repAttemptPhase
  by_cases hge : jsGe (jsGet (st.getStep id).result "attempt") limit
  · rw [if_pos hge]
    dsimp only
    rw [updateData_ok _ (by simpa using hnest)]
    dsimp only
    exact ⟨rfl, by simp⟩
  · rw [if_neg hge]
    dsimp only
    cases hfn : fn calls with
    | error e => exact repCatch_sync now id e (calls + 1) st hnest hsync
    | ok v =>
        dsimp only
        by_cases htr : truthy v
        · rw [if_pos htr]
          rw [updateData_ok _ (by simpa using hnest)]
          dsimp only
          exact ⟨rfl, by simp⟩
        · rw [if_neg htr]
          by_cases hev : everyPos every = true ∧
              jsLt (jsGet ((st.setStep id
                (fun s =>
                  let r := jsSet s.result "attempt" (jsIncr (jsGet s.result "attempt"))
                  { s with result := jsSet r "lastResult" v })).getStep id).result
                "attempt") limit = true
          · rw [if_pos hev]
            rw [updateData_ok _ (by simpa using hnest)]
            dsimp only
            exact ⟨rfl, by simp⟩
          · rw [if_neg hev]
            rw [updateData_ok _ (by simpa using hnest)]
            dsimp only
            have hrec := repGo_sync_after_persist now id limit every fn fuel hP
              ((st.setStep id
                (fun s =>
                  let r := jsSet s.result "attempt" (jsIncr (jsGet s.result "attempt"))
                  { s with result := jsSet r "lastResult" v })).setStep id
                (fun s => { s with status := .active })) (calls + 1)
              (by simpa using hnest)
            exact repTail_sync now id _ st.mem.source hnest hrec.1
              (hrec.2.trans (by simp))

theorem repGo_sync_step (now : Int) (id : String) (limit : Int)
    (every : Option Int) (fn : Nat → Except Thrown JSVal) (fuel : Nat)
    (hQ : RepPhaseSync now id limit every fn fuel) :
    RepGoSync now id limit every fn (fuel + 1) := by
  intro st calls hnest hsync
  unfold executeRepeatGo
  dsimp only
  by_cases hc : ((st.forStep id .repeatT).getStep id).status = .completed
  · rw [if_pos hc]
    exact ⟨by simp [hsync], by simp⟩
  · rw [if_neg hc]
    by_cases hi : truthy ((st.forStep id .repeatT).getStep id).result
    · rw [if_pos hi]
      dsimp only
      by_cases hdel : ((st.forStep id .repeatT).getStep id).status = .delayed ∧
          truthy (jsGet ((st.forStep id .repeatT).getStep id).result
            "needsDelay") = true
      · rw [if_pos hdel]
        rw [updateData_ok _ (by simpa using hnest)]
        dsimp only
        have hrec := repPhase_sync_after_persist now id limit every fn fuel hQ
          ((st.forStep id .repeatT).setStep id
            (fun s => { s with status := .active
                               result := jsSet s.result "needsDelay"
                                 (.bool false) })) calls (by simpa using hnest)
        exact ⟨hrec.1, hrec.2.trans (by simp)⟩
      · rw [if_neg hdel]
        dsimp only
        have hrec := hQ (st.forStep id .repeatT) calls (by simpa using hnest)
          (by simp [hsync])
        exact ⟨hrec.1, hrec.2.trans (by simp)⟩
    · rw [if_neg hi]
      rw [updateData_ok _ (by simpa using hnest)]
      dsimp only
      have hgsI : ((st.forStep id .repeatT).setStep id
          (fun s => { StepStateManager.start now s with result := repInit })).getStep
          id = { StepStateManager.start now
                  ((st.forStep id .repeatT).getStep id) with result := repInit } :=
        getStep_setStep _ _ _ (forStep_handle_isSome st id .repeatT)
      have hnd : ¬ ((ExecState.getStep
          { mem := ((st.forStep id .repeatT).setStep id
              (fun s => { StepStateManager.start now s with result := repInit })).mem
            handles := ((st.forStep id .repeatT).setStep id
              (fun s => { StepStateManager.start now s with result := repInit })).handles.map
                (fun p => (p.1, (⟨p.2.sdata, false⟩ : StepHandle)))
            persisted := ((st.forStep id .repeatT).setStep id
              (fun s => { StepStateManager.start now s with result := repInit })).mem
            priorityVal := ((st.forStep id .repeatT).setStep id
              (fun s => { StepStateManager.start now s with result := repInit })).priorityVal
            delayedUntil := ((st.forStep id .repeatT).setStep id
              (fun s => { StepStateManager.start now s with result := repInit })).delayedUntil
            extWrites := ((st.forStep id .repeatT).setStep id
              (fun s => { StepStateManager.start now s with result := repInit })).extWrites }
          id).status = .delayed ∧
          truthy (jsGet (ExecState.getStep
            { mem := ((st.forStep id .repeatT).setStep id
                (fun s => { StepStateManager.start now s with result := repInit })).mem
              handles := ((st.forStep id .repeatT).setStep id
                (fun s => { StepStateManager.start now s with result := repInit })).handles.map
                  (fun p => (p.1, (⟨p.2.sdata, false⟩ : StepHandle)))
              persisted := ((st.forStep id .repeatT).setStep id
                (fun s => { StepStateManager.start now s with result := repInit })).mem
              priorityVal := ((st.forStep id .repeatT).setStep id
                (fun s => { StepStateManager.start now s with result := repInit })).priorityVal
              delayedUntil := ((st.forStep id .repeatT).setStep id
                (fun s => { StepStateManager.start now s with result := repInit })).delayedUntil
              extWrites := ((st.forStep id .repeatT).setStep id
                (fun s => { StepStateManager.start now s with result := repInit })).extWrites }
            id).result "needsDelay") = true) := by
        rw [getStep_persistRec, hgsI]
        intro hcon
        exact absurd hcon.1 (by simp [StepStateManager.start])
      rw [if_neg hnd]
      dsimp only
      have hrec := repPhase_sync_after_persist now id limit every fn fuel hQ
        ((st.forStep id .repeatT).setStep id
          (fun s => { StepStateManager.start now s with result := repInit })) calls
        (by simpa using hnest)
      exact ⟨hrec.1, hrec.2.trans (by simp)⟩

/-- The synchronisation invariant for every fuel value. -/
theorem repGo_sync (now : Int) (id : String) (limit : Int)
    (every : Option Int) (fn : Nat → Except Thrown JSVal) :
    ∀ fuel, RepGoSync now id limit every fn fuel := by
  intro fuel
  induction fuel with
  | zero =>
      intro st calls hnest hsync
      unfold executeRepeatGo
      dsimp only
      exact ⟨hsync, rfl⟩
  | succ n ih =>
      exact repGo_sync_step now id limit every fn n
        (repPhase_sync now id limit every fn n ih)

/-- `executeRepeat` preserves persisted-blob = in-memory-blob, on every
outcome (the thrown ones included). -/
theorem executeRepeat_sync (now : Int) (id : String) (limit : Int)
    (every : Option Int) (fn : Nat → Except Thrown JSVal) (st : ExecState)
    (hnest : truthy (jsGet st.mem.source "__openqueue") = false)
    (hsync : st.persisted = st.mem) :
    (executeRepeat now id limit every fn st).st.persisted =
      (executeRepeat now id limit every fn st).st.mem := by
  unfold executeRepeat
  exact (repGo_sync now id limit every fn (limit.toNat + 1) st 0 hnest hsync).1

/-- `executeInvoke` preserves persisted-blob = in-memory-blob on every path:
the branches that persist re-establish it via `updateData`, and the other
branches — the completed-cache return, the three polling error returns and
the still-running no-persist poll path — leave both blobs untouched. -/
theorem executeInvoke_sync (wfId : String) (now : Int) (id : String)
    (env : InvokeEnv) (st : ExecState)
    (hnest : truthy (jsGet st.mem.source "__openqueue") = false)
    (hsync : st.persisted = st.mem) :
    (executeInvoke wfId now id env st).st.persisted =
      (executeInvoke wfId now id env st).st.mem := by
  have hset : ∀ f : StepStateR → StepStateR,
      truthy (jsGet ((st.forStep id .invokeWaitForResult).setStep id
        f).mem.source "__openqueue") = false := by
    intro f
    simpa using hnest
  have hsync0 : (st.forStep id .invokeWaitForResult).persisted =
      (st.forStep id .invokeWaitForResult).mem := by
    simp [hsync]
  unfold executeInvoke
  dsimp only
  by_cases hc : ((st.forStep id .invokeWaitForResult).getStep id).status =
      .completed
  · rw [if_pos hc]
    exact hsync0
  · rw [if_neg hc]
    by_cases hd : ((st.forStep id .invokeWaitForResult).getStep id).status =
        .delayed
    · rw [if_pos hd]
      by_cases hjid : truthy (jsGet ((st.forStep id
          .invokeWaitForResult).getStep id).result "jobId") = true
      · rw [if_neg (by rw [hjid]; intro hcon; exact absurd rfl hcon)]
        rcases hT : env.targetExists with _ | _
        · rw [if_pos (by decide)]
          exact hsync0
        · rw [if_neg (by decide)]
          rcases hF : env.jobFound with _ | _
          · rw [if_pos (by decide)]
            exact hsync0
          · rw [if_neg (by decide)]
            split
            · rw [updateData_ok _ (hset _)]
            · rw [updateData_ok _ (hset _)]
            · exact hsync0
      · rw [if_pos hjid]
        exact hsync0
    · rw [if_neg hd]
      rcases hT : env.targetExists with _ | _
      · rw [if_pos (by decide)]
        exact invCatch_sync now id (.errObj "Workflow not found") _
          (by simpa using hnest) hsync0
      · rw [if_neg (by decide)]
        cases hCJ : env.createJobOutcome with
        | error e =>
            dsimp only
            exact invCatch_sync now id e _ (by simpa using hnest) hsync0
        | ok pr =>
            obtain ⟨jid, ijd⟩ := pr
            dsimp only
            rw [updateData_ok _ (hset _)]
            dsimp only
            split
            · rfl
            · rfl

/-! ## C3, continued: the claim theorem over all five step primitives -/

/-- **C3** (corrected).  The persistence-synchronisation half of the claim
holds for every one of the five step primitives: whenever a primitive is
entered with the persisted `JobState` equal to the in-memory blob
(`this.data`), it returns control — normally or by throwing — with the two
equal again.  (The other half of the claim is refuted by the counterexample
`C3_fresh_step_not_in_persisted_steps`: the StepState of a handle created
fresh in this dispatch is in neither blob until `finish()` runs.) -/
theorem C3_persisted_matches_mem :
    (∀ (now : Int) (id : String) (fnBeh : Except Thrown JSVal)
       (st : ExecState),
      truthy (jsGet st.mem.source "__openqueue") = false →
      st.persisted = st.mem →
      (executeRun now id fnBeh st).st.persisted =
        (executeRun now id fnBeh st).st.mem) ∧
    (∀ (wf : WorkflowCfg) (now dur : Int) (id : String) (ty : StepTypeT)
       (st : ExecState),
      truthy (jsGet st.mem.source "__openqueue") = false →
      st.persisted = st.mem →
      (executeSleep wf now id dur ty st).st.persisted =
        (executeSleep wf now id dur ty st).st.mem) ∧
    (∀ (wf : WorkflowCfg) (now ts : Int) (id : String) (st : ExecState),
      truthy (jsGet st.mem.source "__openqueue") = false →
      st.persisted = st.mem →
      (executeSleepUntil wf now id ts st).st.persisted =
        (executeSleepUntil wf now id ts st).st.mem) ∧
    (∀ (now : Int) (id : String) (limit : Int) (every : Option Int)
       (fn : Nat → Except Thrown JSVal) (st : ExecState),
      truthy (jsGet st.mem.source "__openqueue") = false →
      st.persisted = st.mem →
      (executeRepeat now id limit every fn st).st.persisted =
        (executeRepeat now id limit every fn st).st.mem) ∧
    (∀ (wfId : String) (now : Int) (id : String) (env : InvokeEnv)
       (st : ExecState),
      truthy (jsGet st.mem.source "__openqueue") = false →
      st.persisted = st.mem →
      (executeInvoke wfId now id env st).st.persisted =
        (executeInvoke wfId now id env st).st.mem) := by
  refine ⟨?_, ?_, ?_, ?_, ?_⟩
  · intro now id fnBeh st hnest hsync
    exact executeRun_sync now id fnBeh st hnest hsync
  · intro wf now dur id ty st hnest hsync
    exact executeSleep_sync wf now dur id ty st hnest hsync
  · intro wf now ts id st hnest hsync
    exact executeSleepUntil_sync wf now ts id st hnest hsync
  · intro now id limit every fn st hnest hsync
    exact executeRepeat_sync now id limit every fn st hnest hsync
  · intro wfId now id env st hnest hsync
    exact executeInvoke_sync wfId now id env st hnest hsync

/-- A queue environment for the C3 witness: the target workflow exists and
the enqueue succeeds. -/
def invEnvW : InvokeEnv :=
  { targetExists := true
    createJobOutcome := .ok ("w1", srcSample)
    jobFound := true
    extState := fun _ => "active"
    returnValue := fun _ => .null }

/-- Witness for C3: all five primitives run on a freshly loaded state. -/
theorem C3_persisted_matches_mem_witness :
    (executeRun 5 "a" (.ok (.num 42)) (baseState [])).st.persisted =
      (executeRun 5 "a" (.ok (.num 42)) (baseState [])).st.mem ∧
    (executeSleep {} 5 "s" 100 .sleep (baseState [])).st.persisted =
      (executeSleep {} 5 "s" 100 .sleep (baseState [])).st.mem ∧
    (executeSleepUntil {} 5 "u" 300 (baseState [])).st.persisted =
      (executeSleepUntil {} 5 "u" 300 (baseState [])).st.mem ∧
    (executeRepeat 5 "p" 1 (some 0) (fun _ => .ok (.bool true))
        (baseState [])).st.persisted =
      (executeRepeat 5 "p" 1 (some 0) (fun _ => .ok (.bool true))
        (baseState [])).st.mem ∧
    (executeInvoke "A" 5 "i" invEnvW (baseState [])).st.persisted =
      (executeInvoke "A" 5 "i" invEnvW (baseState [])).st.mem :=
  ⟨C3_persisted_matches_mem.1 5 "a" (.ok (.num 42)) (baseState []) rfl rfl,
   C3_persisted_matches_mem.2.1 {} 5 100 "s" .sleep (baseState []) rfl rfl,
   C3_persisted_matches_mem.2.2.1 {} 5 300 "u" (baseState []) rfl rfl,
   C3_persisted_matches_mem.2.2.2.1 5 "p" 1 (some 0)
     (fun _ => .ok (.bool true)) (baseState []) rfl rfl,
   C3_persisted_matches_mem.2.2.2.2 "A" 5 "i" invEnvW (baseState []) rfl rfl⟩

/-! ## C5 -/

/-- **C5** (corrected: the bound is per *dispatch*, not per job).  For a
repeat step with `limit = N` and `every = 0` (whose stored protocol record,
when present, is one the code itself writes: an object with a numeric
`attempt ≥ 0`), the user `run` function is invoked at most `N` times within
one dispatch (the in-process tail recursion included); and whenever the
recorded `attempt` has reached `N` on a not-yet-completed step, the step is
completed with result `false`, the state persisted, and
`{success: true, ran: true, result: false}` returned.  The claim's per-job
reading is false of the code: `repeatState.attempt++` sits after the
`await options.run()` that may throw, so a throwing `run` leaves the
persisted `attempt` unchanged while marking the step failed, and each
queue-retry dispatch invokes `run` again — see the counterexample below. -/
theorem C5_repeat_bounded (now : Int) (id : String) (limit : Int)
    (fn : Nat → Except Thrown JSVal) (st : ExecState) (a : Int)
    (hnest : truthy (jsGet st.mem.source "__openqueue") = false)
    (hwf : repWF ((st.forStep id .repeatT).getStep id) a) (ha : 0 ≤ a) :
    (executeRepeat now id limit (some 0) fn st).fnCalls ≤ limit.toNat ∧
    (limit ≤ a →
      truthy ((st.forStep id .repeatT).getStep id).result = true →
      ((st.forStep id .repeatT).getStep id).status ≠ .completed →
      (executeRepeat now id limit (some 0) fn st).out =
        .ok ⟨true, true, .bool false⟩ ∧
      ((executeRepeat now id limit (some 0) fn st).st.getStep id).status =
        .completed ∧
      ((executeRepeat now id limit (some 0) fn st).st.getStep id).result =
        .bool false ∧
      (executeRepeat now id limit (some 0) fn st).st.persisted =
        (executeRepeat now id limit (some 0) fn st).st.mem) := by
  constructor
  · have hb := repGo_bound now id limit (some 0) fn (limit.toNat + 1) st 0 a
      hnest hwf
    exact le_trans hb (by omega)
  · intro hge htr hnc
    rcases hwf with ⟨hf, _⟩ | ⟨fs, hobj, hatt⟩
    · rw [htr] at hf
      exact absurd hf (by simp)
    · have H := repeat_exhaust now id limit (some 0) fn st a hnest hnc
        ⟨fs, hobj⟩ hatt hge
      exact ⟨H.1, H.2.1, H.2.2.1, H.2.2.2.1⟩

/-- A repeat step whose recorded protocol object has `attempt = 3`. -/
def repStep3 : StepStateR :=
  { type := .repeatT
    status := .active
    result := .obj [("attempt", .num 3), ("lastResult", .bool false),
      ("completed", .bool false)]
    error := .null
    metrics := {} }

/-- Witness for C5: `limit = 3`, a stored record at `attempt = 3`, an
always-falsy user function. -/
theorem C5_repeat_bounded_witness :
    (executeRepeat 2 "p" 3 (some 0) (fun _ => .ok (.bool false))
      (baseState [("p", repStep3)])).fnCalls ≤ (3 : Int).toNat ∧
    (executeRepeat 2 "p" 3 (some 0) (fun _ => .ok (.bool false))
      (baseState [("p", repStep3)])).out = .ok ⟨true, true, .bool false⟩ :=
  have H := C5_repeat_bounded 2 "p" 3 (fun _ => .ok (.bool false))
    (baseState [("p", repStep3)]) 3 rfl (Or.inr ⟨_, rfl, rfl⟩) (by decide)
  ⟨H.1, (H.2 (by decide) rfl (by decide)).1⟩


/-- Dispatch 1 of a repeat step with `limit = 1` whose `run` always throws:
the attempt counter is never incremented (the `repeatState.attempt++` sits
after the `await options.run()` that threw), yet the step is marked failed,
so a queue-level retry re-enters the step. -/
def c5d1 : PrimOut :=
  executeRepeat 5 "p" 1 (some 0) (fun _ => .error (.errObj "boom"))
    (baseState [])

/-- Dispatch 2 (the queue's retry of the failed job): the stored `attempt`
is still `0 < limit`, so the user function is invoked once more. -/
def c5d2 : PrimOut :=
  executeRepeat 6 "p" 1 (some 0) (fun _ => .error (.errObj "boom"))
    (redeliver c5d1.st)

/-- **C5 counterexample** to the per-job reading: with `limit = 1` and an
always-throwing `run`, dispatch 1 invokes the function once, records the
step as failed with `attempt` still `0`, and rethrows; the queue retry
(dispatch 2) invokes it again — two invocations for one job against a
stated bound of one, and every further retry adds another. -/
theorem C5_throwing_run_exceeds_limit_per_job :
    c5d1.fnCalls = 1 ∧
    c5d1.out = .error (.errObj "boom") ∧
    (c5d1.st.getStep "p").status = .failed ∧
    jsGet (c5d1.st.getStep "p").result "attempt" = .num 0 ∧
    c5d2.fnCalls = 1 ∧
    (c5d2.st.getStep "p").status = .failed ∧
    c5d1.fnCalls + c5d2.fnCalls = 2 :=
  ⟨rfl, rfl, rfl, rfl, rfl, rfl, rfl⟩

/-! ## C6 -/

/-- Dispatch 1: first call of the invoke step; the target enqueue yields job
`"j1"`, which is still running. -/
def invEnv1 : InvokeEnv :=
  { targetExists := true
    createJobOutcome := .ok ("j1", (wrapData (.obj [("n", .num 21)])).toJSVal)
    jobFound := true
    extState := fun _ => "waiting"
    returnValue := fun _ => .undefined }

/-- Dispatch 2: resumption; the invoked job `"j1"` has failed. -/
def invEnv2 : InvokeEnv :=
  { targetExists := true
    createJobOutcome := .error (.errObj "unused")
    jobFound := true
    extState := fun _ => "failed"
    returnValue := fun _ => .undefined }

/-- Dispatch 3 (queue retry after the step failed): the first-call branch
runs again and enqueues a fresh job `"j2"`. -/
def invEnv3 : InvokeEnv :=
  { targetExists := true
    createJobOutcome := .ok ("j2", (wrapData (.obj [("n", .num 21)])).toJSVal)
    jobFound := true
    extState := fun _ => "waiting"
    returnValue := fun _ => .undefined }

def c6d1 : PrimOut := executeInvoke "A" 10 "call-b" invEnv1 (baseState [])

def c6d2 : PrimOut := executeInvoke "A" 20 "call-b" invEnv2 (redeliver c6d1.st)

def c6d3 : PrimOut := executeInvoke "A" 30 "call-b" invEnv3 (redeliver c6d2.st)

/-- **C6 counterexample.**  `StepState.result.jobId` is *not* written
exactly once.  Dispatch 1 (first call) writes `jobId = "j1"` and suspends;
dispatch 2 finds the invoked job `failed`, records `error` on the step
(status `failed`, `result` untouched) and throws; the queue then retries
the caller job, and on dispatch 3 — a re-entry of the very same step — the
step's status is `failed`, so `executeInvoke` takes the first-call branch
again, enqueues a fresh target job and overwrites the stored jobId with
`"j2"`. -/
theorem C6_jobId_rewritten_after_failure :
    jsGet (c6d1.st.getStep "call-b").result "jobId" = .str "j1" ∧
    c6d1.out = .error .delayedErr ∧
    (c6d2.st.getStep "call-b").status = .failed ∧
    jsGet (c6d2.st.getStep "call-b").result "jobId" = .str "j1" ∧
    jsGet (c6d3.st.getStep "call-b").result "jobId" = .str "j2" ∧
    c6d3.out = .error .delayedErr := by
  exact ⟨rfl, rfl, rfl, rfl, rfl, rfl⟩

/-- **C6** (corrected).  What does hold: while the step's status is
`"delayed"` (the waiting phase), re-entries of `executeInvoke` only read the
stored `jobId` and never write a different one — if the invoked job is
found completed the whole `result` is replaced by its return value,
otherwise (still running, failed, target or job missing) the stored
`result.jobId` is left exactly as it was.  The jobId is (re)written only by
the first-call branch, which a re-entry reaches again only after the step
has failed (queue retry, cf. the counterexample). -/
theorem C6_jobId_stable_while_delayed (wfId : String) (now : Int)
    (id : String) (env : InvokeEnv) (st : ExecState) (j : String)
    (hnest : truthy (jsGet st.mem.source "__openqueue") = false)
    (hd : ((st.forStep id .invokeWaitForResult).getStep id).status = .delayed)
    (hj : jsGet ((st.forStep id .invokeWaitForResult).getStep id).result
      "jobId" = .str j)
    (hne : j ≠ "") :
    (env.targetExists = true → env.jobFound = true →
      env.extState j = "completed" →
      ((executeInvoke wfId now id env st).st.getStep id).result =
        env.returnValue j) ∧
    (¬ (env.targetExists = true ∧ env.jobFound = true ∧
        env.extState j = "completed") →
      jsGet ((executeInvoke wfId now id env st).st.getStep id).result
        "jobId" = .str j) := by
  have hhandle := forStep_handle_isSome st id .invokeWaitForResult
  have hnc : ¬ ((st.forStep id .invokeWaitForResult).getStep id).status =
      .completed := by
    rw [hd]
    intro hcon
    exact StepStatus.noConfusion hcon
  have htr : truthy (jsGet ((st.forStep id .invokeWaitForResult).getStep
      id).result "jobId") = true := by
    rw [hj]
    simp [truthy, hne]
  have hset : ∀ f : StepStateR → StepStateR,
      truthy (jsGet ((st.forStep id .invokeWaitForResult).setStep id
        f).mem.source "__openqueue") = false := by
    intro f
    simpa using hnest
  constructor
  · intro hT hF hC
    unfold executeInvoke
    dsimp only
    rw [if_neg hnc, if_pos hd]
    rw [if_neg (by rw [htr]; intro hcon; exact absurd rfl hcon), hT, hF]
    rw [if_neg (by decide), if_neg (by decide)]
    rw [hj]
    dsimp only [jsAsString]
    split
    · rw [updateData_ok _ (hset _)]
      dsimp only
      rw [getStep_persistRec, getStep_setStep _ _ _ hhandle]
      rfl
    · next heq =>
        rw [hC] at heq
        exact absurd heq (by decide)
    · next heq₁ heq₂ => exact absurd hC heq₁
  · intro hnall
    unfold executeInvoke
    dsimp only
    rw [if_neg hnc, if_pos hd]
    rw [if_neg (by rw [htr]; intro hcon; exact absurd rfl hcon)]
    rcases hT : env.targetExists with _ | _
    · rw [if_pos (by decide)]
      exact hj
    · rw [if_neg (by decide)]
      rcases hF : env.jobFound with _ | _
      · rw [if_pos (by decide)]
        exact hj
      · rw [if_neg (by decide)]
        have hC : ¬ env.extState j = "completed" := by
          intro hc
          exact hnall ⟨hT, hF, hc⟩
        rw [hj]
        dsimp only [jsAsString]
        split
        · next heq => exact absurd heq hC
        · next heq =>
            rw [updateData_ok _ (hset _)]
            dsimp only
            rw [getStep_persistRec, getStep_setStep _ _ _ hhandle]
            simpa [StepStateManager.error] using hj
        · next heq₁ heq₂ => exact hj

/-- A delayed invoke step waiting on job `"j1"`. -/
def invokeWaiting : StepStateR :=
  { type := .invokeWaitForResult
    status := .delayed
    result := .obj [("jobId", .str "j1")]
    error := .null
    metrics := { startedAt := some 1 } }

/-- Witness for C6: a waiting invoke step polling a still-running job keeps
its stored jobId. -/
theorem C6_jobId_stable_while_delayed_witness :
    jsGet ((executeInvoke "A" 20 "call-b" invEnv1
      (baseState [("call-b", invokeWaiting)])).st.getStep "call-b").result
      "jobId" = .str "j1" :=
  (C6_jobId_stable_while_delayed "A" 20 "call-b" invEnv1
    (baseState [("call-b", invokeWaiting)]) "j1" rfl rfl rfl
    (by decide)).2
    (by intro hall; exact absurd hall.2.2 (by decide))

/-! ## C8 -/

/-- **C8** (confirmed).  `JobStateManager.prepareData` (static) is
idempotent: feeding the prepared data back through `prepareData` yields
`wasPrepared = true` and exactly the first preparation's data (whether or
not the original input was already a valid `JobState`). -/
theorem C8_prepare_idempotent (x : JSVal) :
    prepareData (JobState.toJSVal (prepareData x).2) = (true, (prepareData x).2) :=
  prepareData_toJSVal (prepareData x).2

/-! ## C9 -/

/-- A concrete JS `Error` value. -/
def sampleError : JSVal := thrownJS (.errObj "boom")

/-- **C9** (code bug).  `StepStateManager.error(e)` does set the status to
`"failed"` and `metrics.failedAt` to the current time, but the claim's third
part fails: the code evaluates `e?.toString ?? "N/A"` — the `toString`
*method reference*, not `e?.toString()` — so for every actual `Error` the
step's `error` field receives a function value, never a string form of `e`
(every sibling log call in the same files correctly writes
`e?.toString() ?? "N/A"`, so the missing call is a slip). -/
theorem C9_error_stores_method_not_string :
    (StepStateManager.error 7 sampleError (freshStep .run)).status = .failed ∧
    (StepStateManager.error 7 sampleError (freshStep .run)).metrics.failedAt = some 7 ∧
    (StepStateManager.error 7 sampleError (freshStep .run)).error = .fn "toString" ∧
    ∀ s : String, (StepStateManager.error 7 sampleError (freshStep .run)).error ≠ .str s := by
  refine ⟨rfl, rfl, rfl, fun s h => ?_⟩
  rw [show (StepStateManager.error 7 sampleError (freshStep .run)).error =
    .fn "toString" from rfl] at h
  exact JSVal.noConfusion h

/-! ## C10 -/

/-- A `JobState`-shaped value with `__openqueue = false` — expressible as a
user payload under a zod object schema that itself declares the
`__openqueue`/`__source`/`__steps`/... fields (`schemaParse` is then the
identity on this value). -/
def jsShapedPayload : JobState :=
  { openqueue := false
    source := .null
    invocations := []
    metrics := {}
    errors := []
    steps := []
    logs := [] }

/-- **C10 counterexample.**  `createJob` runs the validated input through
`prepareData`, whose first branch returns any input that *already parses as
a `JobState`* unchanged.  For a schema whose validated output is itself
`JobState`-shaped, the data stored at enqueue time is that output as-is:
`wasPrepared = true` and `__openqueue = false` — not the wrapped form with
`__openqueue = true`, `__source` = the validated input and empty
containers that the claim asserts for every created job. -/
theorem C10_jobstate_shaped_input_not_wrapped :
    (Workflow.createJob (fun v => v) jsShapedPayload.toJSVal).1 = true ∧
    (Workflow.createJob (fun v => v) jsShapedPayload.toJSVal).2.openqueue = false ∧
    (Workflow.createJob (fun v => v) jsShapedPayload.toJSVal).2.source ≠
      jsShapedPayload.toJSVal := by
  have h : Workflow.createJob (fun v => v) jsShapedPayload.toJSVal =
      (true, jsShapedPayload) := prepareData_toJSVal jsShapedPayload
  refine ⟨by rw [h], by rw [h]; rfl,
    by rw [h]; intro hcon; exact JSVal.noConfusion hcon⟩

/-- **C10** (corrected).  For every input whose schema-validated form does
*not* itself parse as a `JobState` (every ordinary payload), the data
stored in the queue at enqueue time is the wrapped prepared `JobState`:
`__openqueue = true`, `__source` equal to the validated input, and empty
steps, invocations, errors, logs and fresh metrics.  Moreover — for *all*
inputs, prepared-shaped or not — the stored data re-parses as a `JobState`
unchanged, so the first worker entry's load observes `wasPrepared = true`
and does not wrap again. -/
theorem C10_createJob_prepared (schemaParse : JSVal → JSVal) (data : JSVal)
    (hplain : safeParseJobState (schemaParse data) = none) :
    Workflow.createJob schemaParse data =
      (false, wrapData (schemaParse data)) ∧
    (Workflow.createJob schemaParse data).2.openqueue = true ∧
    (Workflow.createJob schemaParse data).2.source = schemaParse data ∧
    (Workflow.createJob schemaParse data).2.steps = [] ∧
    (Workflow.createJob schemaParse data).2.invocations = [] ∧
    (Workflow.createJob schemaParse data).2.errors = [] ∧
    (Workflow.createJob schemaParse data).2.logs = [] ∧
    (Workflow.createJob schemaParse data).2.metrics = {} ∧
    prepareData (JobState.toJSVal (Workflow.createJob schemaParse data).2) =
      (true, (Workflow.createJob schemaParse data).2) := by
  have h : Workflow.createJob schemaParse data =
      (false, wrapData (schemaParse data)) := by
    unfold Workflow.createJob prepareData
    rw [hplain]
  refine ⟨h, by rw [h]; rfl, by rw [h]; rfl, by rw [h]; rfl, by rw [h]; rfl,
    by rw [h]; rfl, by rw [h]; rfl, by rw [h]; rfl, prepareData_toJSVal _⟩

/-- Witness for C10 at a concrete input: an ordinary validated payload. -/
theorem C10_createJob_prepared_witness :
    Workflow.createJob (fun v => v) srcSample = (false, wrapData srcSample) ∧
    (Workflow.createJob (fun v => v) srcSample).2.openqueue = true ∧
    (Workflow.createJob (fun v => v) srcSample).2.source = srcSample ∧
    prepareData (JobState.toJSVal (Workflow.createJob (fun v => v) srcSample).2) =
      (true, (Workflow.createJob (fun v => v) srcSample).2) :=
  have H := C10_createJob_prepared (fun v => v) srcSample rfl
  ⟨H.1, H.2.1, H.2.2.1, H.2.2.2.2.2.2.2.2⟩

end OpenQueue
